import Mathlib

/-!
# n8n-gitops: verification of the manifest loader, export externalization and API client

A shallow embedding of the Python sources of `n8n-gitops`:

* `n8n_gitops/manifest.py` — manifest parsing and validation (`load_manifest` and
  its helper stages), embedded as total functions over a `PyVal` tree standing
  for parsed YAML/JSON values, returning `Except String` in place of raised
  `ManifestError`s;
* `n8n_gitops/commands/export_workflows.py` — `_sanitize_filename`,
  `_get_file_extension`, `_externalize_workflow_code` (file writes are modelled
  as an explicit list of `(relative path, content)` pairs);
* `n8n_gitops/commands/create_project.py` — the manifest document the scaffold
  writes;
* `n8n_gitops/n8n_client.py` — the retry loop of `N8nClient._request` and the
  pagination loop of `N8nClient.list_tags`, with the HTTP transport abstracted
  as a function from request data to outcomes;
* the render engine (`n8n_gitops/render.py` is referenced by the sources and
  tests but its code is not in the repository snapshot); it is modelled from
  the specification where needed and marked as such.

Python's `re` module is Unicode-aware on `str` patterns: `\w` matches the
alphanumeric characters in the sense of `str.isalnum()` plus the underscore,
so it keeps non-ASCII word characters such as `é`.  The embedding of `\w`
below carries the exact table for the code points under U+0100 (Basic Latin
and Latin-1 Supplement); the full Unicode category tables are beyond a
shallow embedding, and theorems about the sanitizer's character class are
stated over names drawn from that range.
-/

/-- A Python value as produced by `yaml.safe_load` / `json.loads`: the tagged
tree of dictionaries (association lists in declaration order, keys unique),
lists, strings, integers, booleans and `None`.  Floats do not occur in any
code path treated here. -/
inductive PyVal where
  | pynull
  | pybool (b : Bool)
  | pyint (n : Int)
  | pystr (s : String)
  | pylist (xs : List PyVal)
  | pydict (kvs : List (String × PyVal))

/-- `d.get(key)` on a Python dict modelled as an association list:
the first binding wins (Python dicts have unique keys). -/
def lookupY : List (String × PyVal) → String → Option PyVal
  | [], _ => none
  | (k, v) :: rest, key => if k = key then some v else lookupY rest key

/-- `d[key] = v` on a Python dict: replace the value of an existing binding
in place (insertion order is preserved); append if the key is new. -/
def updateAssoc : List (String × PyVal) → String → PyVal → List (String × PyVal)
  | [], key, v => [(key, v)]
  | (k, w) :: rest, key, v =>
      if k = key then (k, v) :: rest else (k, w) :: updateAssoc rest key v

/-- Python `str.strip()` (trim whitespace from both ends). -/
def pyStrip (s : String) : String :=
  ⟨((s.data.dropWhile Char.isWhitespace).reverse.dropWhile Char.isWhitespace).reverse⟩

/-- Python `str.startswith(pre)`. -/
def pyStartsWith (s pre : String) : Bool :=
  pre.data.isPrefixOf s.data

/-! ## `export_workflows._sanitize_filename` -/

/-- Python's regex `\w` on `str` patterns: Unicode word characters, i.e. the
alphanumerics of `str.isalnum()` plus the underscore.  Exact for every code
point below U+0100: ASCII letters and digits, underscore, and the Latin-1
alphanumerics (ª ² ³ µ ¹ º ¼ ½ ¾ and the letters U+00C0 to U+00FF except the
multiplication and division signs × ÷).  Code points at U+0100 and above are
outside the table and treated as non-word characters, so sanitizer facts are
asserted only for names below U+0100. -/
def isWordChar (c : Char) : Bool :=
  c.isAlphanum || c = '_' ||
    (c.val = 0xAA || c.val = 0xB2 || c.val = 0xB3 || c.val = 0xB5 ||
     c.val = 0xB9 || c.val = 0xBA || c.val = 0xBC || c.val = 0xBD ||
     c.val = 0xBE ||
     (0xC0 ≤ c.val && c.val ≤ 0xFF && c.val ≠ 0xD7 && c.val ≠ 0xF7))

/-- A character kept by `re.sub(r"[^\w\-.]", "_", name)`: word characters,
hyphen and dot. -/
def isKeptChar (c : Char) : Bool := isWordChar c || c = '-' || c = '.'

/-- Helper for `collapseUnderscores`: the boolean records whether the
previously emitted character was an underscore (i.e. we are inside a run). -/
def collapseAux : List Char → Bool → List Char
  | [], _ => []
  | c :: rest, prevU =>
      if c = '_' then
        if prevU then collapseAux rest true else '_' :: collapseAux rest true
      else c :: collapseAux rest false

/-- `re.sub(r"_+", "_", safe)`: collapse every run of underscores to one. -/
def collapseUnderscores (l : List Char) : List Char := collapseAux l false

/-- Python `str.strip(c)` on a character list: drop `c` from both ends. -/
def stripCharEnds (c : Char) (l : List Char) : List Char :=
  ((l.dropWhile (fun x => x = c)).reverse.dropWhile (fun x => x = c)).reverse

/-- `export_workflows._sanitize_filename`: replace every character outside
`[\w\-.]` with an underscore, collapse runs of underscores, strip leading and
trailing underscores, and fall back to `"workflow"` when the result is empty. -/
def _sanitize_filename (name : String) : String :=
  let safe := name.data.map (fun c => if isKeptChar c then c else '_')
  let collapsed := collapseUnderscores safe
  let stripped := stripCharEnds '_' collapsed
  if stripped = [] then "workflow" else ⟨stripped⟩

/-! ## Manifest data model (`manifest.py`) -/

/-- `manifest.WorkflowSpec`. -/
structure WorkflowSpec where
  name : String
  active : Bool := false
  tags : List String := []
  requires_credentials : List String := []
  requires_env : List String := []
deriving DecidableEq, Repr

/-- `WorkflowSpec.file`: the derived file path. -/
def WorkflowSpec.file (spec : WorkflowSpec) : String :=
  "workflows/" ++ _sanitize_filename spec.name ++ ".json"

/-- `manifest.Manifest`. -/
structure Manifest where
  workflows : List WorkflowSpec
  externalize_code : Bool := true
  tags : List String := []
deriving DecidableEq, Repr

/-! ### Sanitizer lemmas -/

lemma collapseAux_sublist (l : List Char) (b : Bool) : (collapseAux l b).Sublist l := by
  induction l generalizing b with
  | nil => simp [collapseAux]
  | cons c rest ih =>
      by_cases hc : c = '_'
      · cases b with
        | true => simpa [collapseAux, hc] using (ih true).cons c
        | false =>
            subst hc
            simpa [collapseAux] using (ih true).cons₂ '_'
      · simpa [collapseAux, hc] using (ih false).cons₂ c

lemma mem_collapseUnderscores {c : Char} {l : List Char}
    (h : c ∈ collapseUnderscores l) : c ∈ l :=
  List.Sublist.mem h (collapseAux_sublist l false)

lemma mem_stripCharEnds {c x : Char} {l : List Char}
    (h : x ∈ stripCharEnds c l) : x ∈ l := by
  unfold stripCharEnds at h
  rw [List.mem_reverse] at h
  have h2 : x ∈ (l.dropWhile (fun y => y = c)).reverse :=
    List.Sublist.mem h (List.dropWhile_sublist _)
  rw [List.mem_reverse] at h2
  exact List.Sublist.mem h2 (List.dropWhile_sublist _)

/-- Every character of a sanitized name is a kept character
(word character, hyphen or dot). -/
lemma sanitize_chars (name : String) :
    ∀ c ∈ (_sanitize_filename name).data, isKeptChar c = true := by
  intro c hc
  unfold _sanitize_filename at hc
  by_cases hemp :
      stripCharEnds '_' (collapseUnderscores
        (name.data.map (fun c => if isKeptChar c then c else '_'))) = []
  · rw [if_pos hemp] at hc
    have hall : ∀ y ∈ ("workflow" : String).data, isKeptChar y = true := by decide
    exact hall c hc
  · rw [if_neg hemp] at hc
    have h1 := mem_collapseUnderscores (mem_stripCharEnds hc)
    rcases List.mem_map.mp h1 with ⟨a, _, ha⟩
    by_cases hk : isKeptChar a = true
    · rw [if_pos hk] at ha; exact ha ▸ hk
    · rw [if_neg hk] at ha; rw [← ha]; decide

/-- The sanitized name is never empty. -/
lemma sanitize_ne_empty (name : String) : _sanitize_filename name ≠ "" := by
  unfold _sanitize_filename
  by_cases hemp :
      stripCharEnds '_' (collapseUnderscores
        (name.data.map (fun c => if isKeptChar c then c else '_'))) = []
  · rw [if_pos hemp]; decide
  · rw [if_neg hemp]
    intro h
    exact hemp (congrArg String.data h)

/-- The ASCII character class `[A-Za-z0-9_\-.]`: the narrower class obtained
by reading the sanitizer's regex as if `\w` were not Unicode-aware. -/
def isAsciiKeptChar (c : Char) : Bool :=
  ('A' ≤ c && c ≤ 'Z') || ('a' ≤ c && c ≤ 'z') || ('0' ≤ c && c ≤ '9') ||
    c = '_' || c = '-' || c = '.'

/-- Sanitization as claim C8 words it: replace every character outside the
ASCII class `[A-Za-z0-9_\-.]` with an underscore, collapse runs of
underscores, strip leading and trailing underscores, fall back to
`"workflow"` when empty.  This follows the claim's words, to be compared
with `_sanitize_filename`, which follows the source. -/
def asciiSanitize (name : String) : String :=
  let safe := name.data.map (fun c => if isAsciiKeptChar c then c else '_')
  let collapsed := collapseUnderscores safe
  let stripped := stripCharEnds '_' collapsed
  if stripped = [] then "workflow" else ⟨stripped⟩

/-- C8 counterexample: at the name "Café", the program's sanitizer keeps the
non-ASCII word character 'é' (Python's `\w` is Unicode-aware), so the derived
file path is `workflows/Café.json`; it differs from the path built with the
ASCII-class sanitization the claim describes, and its stem contains a
character outside `[A-Za-z0-9_\-.]`. -/
theorem c8_ascii_class_counterexample :
    _sanitize_filename "Café" = "Café" ∧
    asciiSanitize "Café" = "Caf" ∧
    WorkflowSpec.file ⟨"Café", false, [], [], []⟩ = "workflows/Café.json" ∧
    WorkflowSpec.file ⟨"Café", false, [], [], []⟩ ≠
      "workflows/" ++ asciiSanitize "Café" ++ ".json" ∧
    ¬ (∀ c ∈ (_sanitize_filename "Café").data, isAsciiKeptChar c = true) := by
  decide

/-- C8 (amended): for every `WorkflowSpec` whose name stays below U+0100
(the range on which the embedded `\w` table is exact), the derived file path
is `"workflows/" ++ sanitize(name) ++ ".json"`, the sanitized stem is
non-empty, and it consists only of word characters (Unicode-aware `\w`),
hyphens and dots. -/
theorem c8_derived_file_path_amended (spec : WorkflowSpec)
    (h : ∀ c ∈ spec.name.data, c.val < 0x100) :
    spec.file = "workflows/" ++ _sanitize_filename spec.name ++ ".json" ∧
    _sanitize_filename spec.name ≠ "" ∧
    (∀ c ∈ (_sanitize_filename spec.name).data, isKeptChar c = true) :=
  ⟨rfl, sanitize_ne_empty spec.name, sanitize_chars spec.name⟩

/-- Witness for the amended C8 at the name of the counterexample. -/
theorem c8_derived_file_path_amended_witness :
    (∀ c ∈ ("Café" : String).data, c.val < 0x100) ∧
    (WorkflowSpec.file ⟨"Café", false, [], [], []⟩ =
        "workflows/" ++ _sanitize_filename "Café" ++ ".json" ∧
      _sanitize_filename "Café" ≠ "" ∧
      (∀ c ∈ (_sanitize_filename "Café").data, isKeptChar c = true)) :=
  ⟨by decide, c8_derived_file_path_amended ⟨"Café", false, [], [], []⟩ (by decide)⟩

/-! ## Manifest loading stages (`manifest.py`)

Raised `ManifestError`s are modelled as `Except.error` carrying the message
string; reading and YAML-parsing the manifest file (IO and the PyYAML
library) are represented by an `Except String PyVal` input holding either the
already-wrapped read/parse error message or the parsed document. -/

/-- All elements are Python `str`: returns the string list, or `none` if some
element is not a string (the `all(isinstance(t, str) ...)` checks). -/
def allStrings : List PyVal → Option (List String)
  | [] => some []
  | .pystr s :: rest => (allStrings rest).map (fun ss => s :: ss)
  | _ => none

/-- `manifest._read_and_parse_yaml`: the read/parse outcome, then the check
that the root is a dictionary.  (Error propagation of the Python exceptions is
written as explicit matches.) -/
def _read_and_parse_yaml (readParse : Except String PyVal) :
    Except String (List (String × PyVal)) :=
  match readParse with
  | .error e => .error e
  | .ok (.pydict kvs) => .ok kvs
  | .ok _ => .error "Manifest root must be a dictionary"

/-- `manifest._parse_externalize_code`. -/
def _parse_externalize_code (data : List (String × PyVal)) : Except String Bool :=
  match (lookupY data "externalize_code").getD (.pybool true) with
  | .pybool b => .ok b
  | _ => .error "'externalize_code' must be a boolean"

/-- `manifest._parse_tags`. -/
def _parse_tags (data : List (String × PyVal)) : Except String (List String) :=
  match (lookupY data "tags").getD (.pylist []) with
  | .pylist xs =>
      match allStrings xs with
      | some ss => .ok ss
      | none => .error "All tags must be strings"
  | _ => .error "'tags' must be a list"

/-- `manifest._validate_workflow_field_list`; the Python function only raises,
the validated string list is returned here so callers can use it directly. -/
def _validate_workflow_field_list (fieldName : String) (fieldValue : PyVal)
    (idx : Nat) (wfName : String) : Except String (List String) :=
  match fieldValue with
  | .pylist xs =>
      match allStrings xs with
      | some ss => .ok ss
      | none =>
          .error s!"Workflow entry {idx} ('{wfName}'): all '{fieldName}' must be strings"
  | _ => .error s!"Workflow entry {idx} ('{wfName}'): '{fieldName}' must be a list"

/-- The name-field validation at the head of `manifest._parse_workflow_spec`:
`name` must be present and a non-empty string. -/
def parseWorkflowName (workflow_data : List (String × PyVal)) (idx : Nat) :
    Except String String :=
  match lookupY workflow_data "name" with
  | none => .error s!"Workflow entry {idx} missing required field 'name'"
  | some (.pystr s) =>
      if s = "" then
        .error s!"Workflow entry {idx}: 'name' must be a non-empty string"
      else .ok s
  | some _ => .error s!"Workflow entry {idx}: 'name' must be a non-empty string"

/-- The active-field validation of `manifest._parse_workflow_spec`:
`active` defaults to `False` and must be a boolean. -/
def parseActiveField (workflow_data : List (String × PyVal)) (idx : Nat)
    (name : String) : Except String Bool :=
  match (lookupY workflow_data "active").getD (.pybool false) with
  | .pybool b => .ok b
  | _ => .error s!"Workflow entry {idx} ('{name}'): 'active' must be a boolean"

/-- `manifest._parse_workflow_spec`.  The `seen_names` set is passed as a list
(membership is all that is used); the caller adds the new name.  Field checks
run in source order: name, duplicate, active, tags, requires_credentials,
requires_env. -/
def _parse_workflow_spec (workflow_data : List (String × PyVal)) (idx : Nat)
    (seen_names : List String) : Except String WorkflowSpec :=
  match parseWorkflowName workflow_data idx with
  | .error e => .error e
  | .ok name =>
    if name ∈ seen_names then
      .error s!"Duplicate workflow name '{name}' found in manifest"
    else
      match parseActiveField workflow_data idx name with
      | .error e => .error e
      | .ok active =>
        match _validate_workflow_field_list "tags"
            ((lookupY workflow_data "tags").getD (.pylist [])) idx name with
        | .error e => .error e
        | .ok tags =>
          match _validate_workflow_field_list "requires_credentials"
              ((lookupY workflow_data "requires_credentials").getD (.pylist [])) idx name with
          | .error e => .error e
          | .ok requires_credentials =>
            match _validate_workflow_field_list "requires_env"
                ((lookupY workflow_data "requires_env").getD (.pylist [])) idx name with
            | .error e => .error e
            | .ok requires_env =>
                .ok ⟨name, active, tags, requires_credentials, requires_env⟩

/-- The entry loop of `manifest._parse_workflows`: entries in document order,
`seen_names` accumulating each parsed name. -/
def parseWorkflowsAux : List PyVal → Nat → List String → Except String (List WorkflowSpec)
  | [], _, _ => .ok []
  | entry :: rest, idx, seen =>
      match entry with
      | .pydict kvs =>
          match _parse_workflow_spec kvs idx seen with
          | .error e => .error e
          | .ok spec =>
              match parseWorkflowsAux rest (idx + 1) (spec.name :: seen) with
              | .error e => .error e
              | .ok others => .ok (spec :: others)
      | _ => .error s!"Workflow entry {idx} must be a dictionary"

/-- `manifest._parse_workflows`. -/
def _parse_workflows (data : List (String × PyVal)) : Except String (List WorkflowSpec) :=
  match lookupY data "workflows" with
  | none => .error "Manifest missing required 'workflows' key"
  | some (.pylist entries) => parseWorkflowsAux entries 0 []
  | some _ => .error "'workflows' must be a list"

/-- Insertion step of `pySortedSet`. -/
def insertSorted (x : String) : List String → List String
  | [] => [x]
  | y :: ys => if x ≤ y then x :: y :: ys else y :: insertSorted x ys

/-- Python `sorted(set(xs))`: the distinct elements in ascending order. -/
def pySortedSet (xs : List String) : List String := xs.dedup.foldr insertSorted []

/-- Python `repr` of a list of strings, as interpolated by the f-string in
`_validate_workflow_tags` (`str(sorted(manifest_tag_names))`). -/
def pyReprStrList (xs : List String) : String :=
  "[" ++ String.intercalate ", " (xs.map (fun s => "'" ++ s ++ "'")) ++ "]"

/-- The message raised by `manifest._validate_workflow_tags`. -/
def undefinedTagMsg (wfName tag : String) (validSorted : List String) : String :=
  "Workflow '" ++ wfName ++ "' references undefined tag '" ++ tag ++
    "'. Available tags: " ++ pyReprStrList validSorted

/-- First tag of this workflow not declared at manifest level (the inner loop
of `_validate_workflow_tags`). -/
def firstUndeclared (tags manifestTags : List String) : Option String :=
  match tags with
  | [] => none
  | t :: rest => if t ∈ manifestTags then firstUndeclared rest manifestTags else some t

/-- `manifest._validate_workflow_tags`. -/
def _validate_workflow_tags : List WorkflowSpec → List String → Except String Unit
  | [], _ => .ok ()
  | spec :: rest, manifest_tags =>
      match firstUndeclared spec.tags manifest_tags with
      | some t => .error (undefinedTagMsg spec.name t (pySortedSet manifest_tags))
      | none => _validate_workflow_tags rest manifest_tags

/-- `manifest.load_manifest`, from the read/parse outcome onwards: the stages
run in source order and the first failure wins. -/
def load_manifest (readParse : Except String PyVal) : Except String Manifest :=
  match _read_and_parse_yaml readParse with
  | .error e => .error e
  | .ok data =>
    match _parse_externalize_code data with
    | .error e => .error e
    | .ok externalize_code =>
      match _parse_tags data with
      | .error e => .error e
      | .ok tags_list =>
        match _parse_workflows data with
        | .error e => .error e
        | .ok workflows =>
          match _validate_workflow_tags workflows tags_list with
          | .error e => .error e
          | .ok _ => .ok ⟨workflows, externalize_code, tags_list⟩

/-! ## Tag cross-validation (claim C2) -/

/-- `a` contains `b` as a contiguous substring. -/
def containsSub (a b : String) : Prop := ∃ p q : String, a = p ++ b ++ q

lemma mem_insertSorted {x a : String} {l : List String} :
    x ∈ insertSorted a l ↔ x = a ∨ x ∈ l := by
  induction l with
  | nil => simp [insertSorted]
  | cons y ys ih =>
      by_cases h : a ≤ y
      · simp [insertSorted, h]
      · simp only [insertSorted, if_neg h, List.mem_cons, ih]
        tauto

lemma mem_foldr_insertSorted {t : String} {l : List String} (h : t ∈ l) :
    t ∈ l.foldr insertSorted [] := by
  induction l with
  | nil => exact absurd h (List.not_mem_nil t)
  | cons y ys ih =>
      rw [List.foldr_cons]
      rcases List.mem_cons.mp h with h1 | h1
      · exact mem_insertSorted.mpr (Or.inl h1)
      · exact mem_insertSorted.mpr (Or.inr (ih h1))

/-- Every valid tag appears in Python's `sorted(set(tags))`. -/
lemma mem_pySortedSet {t : String} {xs : List String} (h : t ∈ xs) :
    t ∈ pySortedSet xs :=
  mem_foldr_insertSorted (List.mem_dedup.mpr h)

lemma firstUndeclared_some {tags manifestTags : List String} {t : String}
    (h : firstUndeclared tags manifestTags = some t) :
    t ∈ tags ∧ t ∉ manifestTags := by
  induction tags with
  | nil => simp [firstUndeclared] at h
  | cons a rest ih =>
      by_cases hm : a ∈ manifestTags
      · rw [firstUndeclared, if_pos hm] at h
        rcases ih h with ⟨h1, h2⟩
        exact ⟨List.mem_cons_of_mem _ h1, h2⟩
      · rw [firstUndeclared, if_neg hm] at h
        injection h with h
        subst h
        exact ⟨List.mem_cons_self a rest, hm⟩

lemma firstUndeclared_none {tags manifestTags : List String}
    (h : firstUndeclared tags manifestTags = none) : ∀ t ∈ tags, t ∈ manifestTags := by
  induction tags with
  | nil => simp
  | cons a rest ih =>
      by_cases hm : a ∈ manifestTags
      · rw [firstUndeclared, if_pos hm] at h
        intro t ht
        rcases List.mem_cons.mp ht with h1 | h1
        · exact h1 ▸ hm
        · exact ih h t h1
      · rw [firstUndeclared, if_neg hm] at h
        cases h

/-- If some workflow references an undeclared tag, `_validate_workflow_tags`
fails with the message naming the first offending workflow and tag. -/
lemma validate_tags_error {ws : List WorkflowSpec} {tags : List String}
    (h : ∃ spec ∈ ws, ∃ t ∈ spec.tags, t ∉ tags) :
    ∃ n t, _validate_workflow_tags ws tags =
        .error (undefinedTagMsg n t (pySortedSet tags)) ∧
      (∃ spec ∈ ws, spec.name = n ∧ t ∈ spec.tags) ∧ t ∉ tags := by
  induction ws with
  | nil =>
      rcases h with ⟨spec, hmem, _⟩
      exact absurd hmem (List.not_mem_nil spec)
  | cons spec rest ih =>
      cases hf : firstUndeclared spec.tags tags with
      | some t =>
          rcases firstUndeclared_some hf with ⟨h1, h2⟩
          refine ⟨spec.name, t, ?_, ⟨spec, List.mem_cons_self spec rest, rfl, h1⟩, h2⟩
          rw [_validate_workflow_tags, hf]
      | none =>
          have hclean := firstUndeclared_none hf
          rcases h with ⟨s, hs, t, ht, hnt⟩
          rcases List.mem_cons.mp hs with h1 | h1
          · exact absurd (hclean t (h1 ▸ ht)) hnt
          · rcases ih ⟨s, h1, t, ht, hnt⟩ with ⟨n, t', he, ⟨s', hs', hn, ht'⟩, hout⟩
            refine ⟨n, t', ?_, ⟨s', List.mem_cons_of_mem _ hs', hn, ht'⟩, hout⟩
            rw [_validate_workflow_tags, hf]
            exact he

/-- If `_validate_workflow_tags` succeeds, every workflow's tags are declared. -/
lemma validate_tags_ok {ws : List WorkflowSpec} {tags : List String}
    (h : _validate_workflow_tags ws tags = .ok ()) :
    ∀ spec ∈ ws, ∀ t ∈ spec.tags, t ∈ tags := by
  induction ws with
  | nil => simp
  | cons spec rest ih =>
      cases hf : firstUndeclared spec.tags tags with
      | some t => rw [_validate_workflow_tags, hf] at h; cases h
      | none =>
          rw [_validate_workflow_tags, hf] at h
          intro s hs t ht
          rcases List.mem_cons.mp hs with h1 | h1
          · exact firstUndeclared_none hf t (h1 ▸ ht)
          · exact ih h s h1 t ht

lemma undefinedTagMsg_contains_name (n t : String) (v : List String) :
    containsSub (undefinedTagMsg n t v) n := by
  refine ⟨"Workflow '",
    "' references undefined tag '" ++ t ++ "'. Available tags: " ++ pyReprStrList v, ?_⟩
  unfold undefinedTagMsg
  simp [String.append_assoc]

lemma undefinedTagMsg_contains_tag (n t : String) (v : List String) :
    containsSub (undefinedTagMsg n t v) t := by
  refine ⟨"Workflow '" ++ n ++ "' references undefined tag '",
    "'. Available tags: " ++ pyReprStrList v, ?_⟩
  unfold undefinedTagMsg
  simp [String.append_assoc]

/-- C2: if some workflow entry's tags contain a name missing from the
manifest-level tag collection, `load_manifest` raises `ManifestError` (never
returns a `Manifest`) and the message names the offending workflow, the
offending tag, and the sorted set of valid tag names; conversely, every
`Manifest` that `load_manifest` returns has each workflow's tags contained in
the manifest's tags. -/
theorem c2_tag_validation :
    (∀ (kvs : List (String × PyVal)) (b : Bool) (tagsL : List String)
        (ws : List WorkflowSpec),
      _parse_externalize_code kvs = .ok b →
      _parse_tags kvs = .ok tagsL →
      _parse_workflows kvs = .ok ws →
      (∃ spec ∈ ws, ∃ t ∈ spec.tags, t ∉ tagsL) →
      ∃ n t, load_manifest (.ok (.pydict kvs)) =
          .error (undefinedTagMsg n t (pySortedSet tagsL)) ∧
        (∃ spec ∈ ws, spec.name = n ∧ t ∈ spec.tags) ∧ t ∉ tagsL ∧
        containsSub (undefinedTagMsg n t (pySortedSet tagsL)) n ∧
        containsSub (undefinedTagMsg n t (pySortedSet tagsL)) t ∧
        (∀ u ∈ tagsL, u ∈ pySortedSet tagsL)) ∧
    (∀ (input : Except String PyVal) (m : Manifest),
      load_manifest input = .ok m →
      ∀ spec ∈ m.workflows, ∀ t ∈ spec.tags, t ∈ m.tags) := by
  constructor
  · intro kvs b tagsL ws hec htg hws hviol
    rcases validate_tags_error hviol with ⟨n, t, he, hin, hout⟩
    refine ⟨n, t, ?_, hin, hout, undefinedTagMsg_contains_name n t _,
      undefinedTagMsg_contains_tag n t _, fun u hu => mem_pySortedSet hu⟩
    simp only [load_manifest, _read_and_parse_yaml, hec, htg, hws, he]
  · intro input m h
    simp only [load_manifest] at h
    cases hr : _read_and_parse_yaml input with
    | error e => simp only [hr] at h; exact Except.noConfusion h
    | ok kvs =>
        simp only [hr] at h
        cases hec : _parse_externalize_code kvs with
        | error e => simp only [hec] at h; exact Except.noConfusion h
        | ok b =>
            simp only [hec] at h
            cases htg : _parse_tags kvs with
            | error e => simp only [htg] at h; exact Except.noConfusion h
            | ok tagsL =>
                simp only [htg] at h
                cases hws : _parse_workflows kvs with
                | error e => simp only [hws] at h; exact Except.noConfusion h
                | ok ws =>
                    simp only [hws] at h
                    cases hv : _validate_workflow_tags ws tagsL with
                    | error e => simp only [hv] at h; exact Except.noConfusion h
                    | ok u =>
                        cases u
                        simp only [hv] at h
                        injection h with h
                        subst h
                        exact validate_tags_ok hv

/-! ## Fail-fast ordering of `load_manifest` (claim C3) -/

/-- Splitting the workflow-entry loop: entries are processed strictly in
document order, with the index and the seen-name set advanced across the
prefix. -/
lemma parseWorkflowsAux_append (l1 l2 : List PyVal) (idx : Nat) (seen : List String) :
    parseWorkflowsAux (l1 ++ l2) idx seen =
      match parseWorkflowsAux l1 idx seen with
      | .error e => .error e
      | .ok specs =>
          match parseWorkflowsAux l2 (idx + l1.length)
              ((specs.map WorkflowSpec.name).reverse ++ seen) with
          | .error e => .error e
          | .ok others => .ok (specs ++ others) := by
  induction l1 generalizing idx seen with
  | nil =>
      simp only [List.nil_append, parseWorkflowsAux, List.length_nil, Nat.add_zero,
        List.map_nil, List.reverse_nil]
      cases parseWorkflowsAux l2 idx seen <;> simp
  | cons entry l1' ih =>
      cases entry with
      | pydict kvs =>
          cases hs : _parse_workflow_spec kvs idx seen with
          | error e => simp only [List.cons_append, parseWorkflowsAux, hs]
          | ok spec =>
              simp only [List.cons_append, parseWorkflowsAux, hs, List.append_eq,
                List.length_cons]
              rw [show idx + (l1'.length + 1) = idx + 1 + l1'.length by omega]
              rw [ih (idx + 1) (spec.name :: seen)]
              cases hl1 : parseWorkflowsAux l1' (idx + 1) (spec.name :: seen) with
              | error e => simp only [hl1]
              | ok specs' =>
                  simp only [hl1, List.map_cons, List.reverse_cons, List.append_assoc,
                    List.singleton_append]
                  cases hl2 : parseWorkflowsAux l2 (idx + 1 + l1'.length)
                      ((specs'.map WorkflowSpec.name).reverse ++ spec.name :: seen) with
                  | error e => simp only [hl2]
                  | ok others => simp only [hl2, List.cons_append]
      | pynull => rfl
      | pybool b => rfl
      | pyint n => rfl
      | pystr s => rfl
      | pylist xs => rfl

/-- A failing entry at the head fails the whole loop with the same error,
whatever follows it. -/
lemma parseWorkflowsAux_head_error {bad : PyVal} {rest : List PyVal} {i : Nat}
    {s : List String} {e : String}
    (h : parseWorkflowsAux [bad] i s = .error e) :
    parseWorkflowsAux (bad :: rest) i s = .error e := by
  cases bad with
  | pydict kvs =>
      simp only [parseWorkflowsAux] at h ⊢
      cases hs : _parse_workflow_spec kvs i s with
      | error e' => simp only [hs] at h ⊢; exact h
      | ok spec =>
          simp only [hs, parseWorkflowsAux] at h
          exact Except.noConfusion h
  | pynull => exact h
  | pybool b => exact h
  | pyint n => exact h
  | pystr str => exact h
  | pylist xs => exact h

/-- The two-stage-violation document of C3: `externalize_code` is a string
(not a boolean) and the workflow list carries a duplicate name. -/
def c3TwoViolationsDoc : PyVal :=
  .pydict [("externalize_code", .pystr "yes"),
           ("workflows", .pylist [.pydict [("name", .pystr "Dup")],
                                  .pydict [("name", .pystr "Dup")]])]

/-- C3: `load_manifest` fails on the first violation in the fixed stage order
read/parse, root shape, `externalize_code`, `tags`, `workflows` entry by entry
in document order, tag cross-validation last; in particular a non-boolean
`externalize_code` is reported even when a duplicate workflow name also
exists. -/
theorem c3_fail_fast_order :
    (∀ e : String, load_manifest (.error e) = .error e) ∧
    (∀ (v : PyVal) (e : String), _read_and_parse_yaml (.ok v) = .error e →
      load_manifest (.ok v) = .error e) ∧
    (∀ kvs e, _parse_externalize_code kvs = .error e →
      load_manifest (.ok (.pydict kvs)) = .error e) ∧
    (∀ kvs b e, _parse_externalize_code kvs = .ok b → _parse_tags kvs = .error e →
      load_manifest (.ok (.pydict kvs)) = .error e) ∧
    (∀ kvs b tl e, _parse_externalize_code kvs = .ok b → _parse_tags kvs = .ok tl →
      _parse_workflows kvs = .error e → load_manifest (.ok (.pydict kvs)) = .error e) ∧
    (∀ kvs b tl ws e, _parse_externalize_code kvs = .ok b → _parse_tags kvs = .ok tl →
      _parse_workflows kvs = .ok ws → _validate_workflow_tags ws tl = .error e →
      load_manifest (.ok (.pydict kvs)) = .error e) ∧
    (∀ (pre : List PyVal) (bad : PyVal) (rest : List PyVal) (idx : Nat)
        (seen : List String) (specs : List WorkflowSpec) (e : String),
      parseWorkflowsAux pre idx seen = .ok specs →
      parseWorkflowsAux [bad] (idx + pre.length)
          ((specs.map WorkflowSpec.name).reverse ++ seen) = .error e →
      parseWorkflowsAux (pre ++ bad :: rest) idx seen = .error e) ∧
    load_manifest (.ok c3TwoViolationsDoc) = .error "'externalize_code' must be a boolean" := by
  refine ⟨fun e => rfl, ?_, ?_, ?_, ?_, ?_, ?_, ?_⟩
  · intro v e h
    simp only [load_manifest, h]
  · intro kvs e h
    simp only [load_manifest, _read_and_parse_yaml, h]
  · intro kvs b e h1 h2
    simp only [load_manifest, _read_and_parse_yaml, h1, h2]
  · intro kvs b tl e h1 h2 h3
    simp only [load_manifest, _read_and_parse_yaml, h1, h2, h3]
  · intro kvs b tl ws e h1 h2 h3 h4
    simp only [load_manifest, _read_and_parse_yaml, h1, h2, h3, h4]
  · intro pre bad rest idx seen specs e h1 h2
    rw [parseWorkflowsAux_append pre (bad :: rest) idx seen]
    simp only [h1]
    rw [parseWorkflowsAux_head_error h2]
  · rfl

/-- Witness for C3: a document whose `tags` field is a string fails with the
tags-stage error once `externalize_code` has parsed. -/
theorem c3_fail_fast_order_witness :
    load_manifest (.ok (.pydict [("tags", .pystr "nope"), ("workflows", .pylist [])])) =
      .error "'tags' must be a list" :=
  c3_fail_fast_order.2.2.2.1 [("tags", .pystr "nope"), ("workflows", .pylist [])]
    true "'tags' must be a list" rfl rfl

/-- A concrete workflow spec referencing the undeclared tag `dev`. -/
def c2Spec : WorkflowSpec := ⟨"W", false, ["dev"], [], []⟩

/-- A concrete valid manifest document (tags all declared). -/
def c2OkDocKvs : List (String × PyVal) :=
  [("tags", .pylist [.pystr "prod"]),
   ("workflows", .pylist [.pydict [("name", .pystr "W"),
                                   ("tags", .pylist [.pystr "prod"])]])]

/-- The manifest `load_manifest` returns for `c2OkDocKvs`. -/
def c2Manifest : Manifest := ⟨[⟨"W", false, ["prod"], [], []⟩], true, ["prod"]⟩

/-- A concrete manifest document whose only workflow references the
undeclared tag `dev` while only `prod` is declared. -/
def c2DocKvs : List (String × PyVal) :=
  [("tags", .pylist [.pystr "prod"]),
   ("workflows", .pylist [.pydict [("name", .pystr "W"),
                                   ("tags", .pylist [.pystr "dev"])]])]

/-- Witness for C2 at a concrete document. -/
theorem c2_tag_validation_witness :
    (∃ n t, load_manifest (.ok (.pydict c2DocKvs)) =
        .error (undefinedTagMsg n t (pySortedSet ["prod"])) ∧
      (∃ spec ∈ [c2Spec], spec.name = n ∧ t ∈ spec.tags) ∧ t ∉ ["prod"] ∧
      containsSub (undefinedTagMsg n t (pySortedSet ["prod"])) n ∧
      containsSub (undefinedTagMsg n t (pySortedSet ["prod"])) t ∧
      (∀ u ∈ ["prod"], u ∈ pySortedSet ["prod"])) ∧
    (∀ spec ∈ c2Manifest.workflows, ∀ t ∈ spec.tags, t ∈ c2Manifest.tags) :=
  ⟨c2_tag_validation.1 c2DocKvs true ["prod"] [c2Spec] rfl rfl rfl
      ⟨c2Spec, List.mem_cons_self c2Spec [], "dev", by decide, by decide⟩,
    c2_tag_validation.2 (.ok (.pydict c2OkDocKvs)) c2Manifest rfl⟩

/-! ## Unique, non-empty workflow names (claim C4) -/

/-- The name a workflow entry would contribute: the entry must be a
dictionary whose `name` key holds a non-empty string. -/
def entryName : PyVal → Option String
  | .pydict kvs =>
      match lookupY kvs "name" with
      | some (.pystr s) => if s = "" then none else some s
      | _ => none
  | _ => none

lemma parseWorkflowName_ok {kvs : List (String × PyVal)} {idx : Nat} {n : String}
    (h : parseWorkflowName kvs idx = .ok n) :
    entryName (.pydict kvs) = some n ∧ n ≠ "" := by
  cases hl : lookupY kvs "name" with
  | none =>
      simp only [parseWorkflowName, hl] at h
      exact Except.noConfusion h
  | some v =>
      cases v with
      | pystr s =>
          simp only [parseWorkflowName, hl] at h
          by_cases hs : s = ""
          · rw [if_pos hs] at h; exact Except.noConfusion h
          · rw [if_neg hs] at h
            injection h with h
            subst h
            refine ⟨?_, hs⟩
            simp only [entryName, hl, if_neg hs]
      | pynull => simp only [parseWorkflowName, hl] at h; exact Except.noConfusion h
      | pybool b => simp only [parseWorkflowName, hl] at h; exact Except.noConfusion h
      | pyint i => simp only [parseWorkflowName, hl] at h; exact Except.noConfusion h
      | pylist xs => simp only [parseWorkflowName, hl] at h; exact Except.noConfusion h
      | pydict d => simp only [parseWorkflowName, hl] at h; exact Except.noConfusion h

lemma parse_spec_ok {kvs : List (String × PyVal)} {idx : Nat} {seen : List String}
    {spec : WorkflowSpec} (h : _parse_workflow_spec kvs idx seen = .ok spec) :
    entryName (.pydict kvs) = some spec.name ∧ spec.name ≠ "" ∧ spec.name ∉ seen := by
  cases hn : parseWorkflowName kvs idx with
  | error e =>
      simp only [_parse_workflow_spec, hn] at h
      exact Except.noConfusion h
  | ok n =>
      simp only [_parse_workflow_spec, hn] at h
      by_cases hseen : n ∈ seen
      · rw [if_pos hseen] at h; exact Except.noConfusion h
      · rw [if_neg hseen] at h
        cases ha : parseActiveField kvs idx n with
        | error e => simp only [ha] at h; exact Except.noConfusion h
        | ok active =>
            simp only [ha] at h
            cases h1 : _validate_workflow_field_list "tags"
                ((lookupY kvs "tags").getD (.pylist [])) idx n with
            | error e => simp only [h1] at h; exact Except.noConfusion h
            | ok tags =>
                simp only [h1] at h
                cases h2 : _validate_workflow_field_list "requires_credentials"
                    ((lookupY kvs "requires_credentials").getD (.pylist [])) idx n with
                | error e => simp only [h2] at h; exact Except.noConfusion h
                | ok rc =>
                    simp only [h2] at h
                    cases h3 : _validate_workflow_field_list "requires_env"
                        ((lookupY kvs "requires_env").getD (.pylist [])) idx n with
                    | error e => simp only [h3] at h; exact Except.noConfusion h
                    | ok renv =>
                        simp only [h3] at h
                        injection h with h
                        subst h
                        rcases parseWorkflowName_ok hn with ⟨he, hne⟩
                        exact ⟨he, hne, hseen⟩

/-- Soundness of the entry loop: on success, the entries' names line up with
the returned specs, the names are pairwise distinct, new, and non-empty. -/
lemma parseWorkflowsAux_ok {entries : List PyVal} {idx : Nat} {seen : List String}
    {specs : List WorkflowSpec} (h : parseWorkflowsAux entries idx seen = .ok specs) :
    entries.map entryName = specs.map (fun s => some s.name) ∧
    (specs.map WorkflowSpec.name).Nodup ∧
    (∀ s ∈ specs, s.name ∉ seen ∧ s.name ≠ "") := by
  induction entries generalizing idx seen specs with
  | nil =>
      simp only [parseWorkflowsAux] at h
      injection h with h
      subst h
      simp
  | cons entry rest ih =>
      cases entry with
      | pydict kvs =>
          cases hs : _parse_workflow_spec kvs idx seen with
          | error e =>
              simp only [parseWorkflowsAux, hs] at h
              exact Except.noConfusion h
          | ok spec =>
              cases hr : parseWorkflowsAux rest (idx + 1) (spec.name :: seen) with
              | error e =>
                  simp only [parseWorkflowsAux, hs, hr] at h
                  exact Except.noConfusion h
              | ok others =>
                  simp only [parseWorkflowsAux, hs, hr] at h
                  injection h with h
                  subst h
                  rcases parse_spec_ok hs with ⟨hen, hne, hnseen⟩
                  rcases ih hr with ⟨hmap, hnodup, hrest⟩
                  refine ⟨?_, ?_, ?_⟩
                  · simp only [List.map_cons, hen, hmap]
                  · rw [List.map_cons, List.nodup_cons]
                    refine ⟨?_, hnodup⟩
                    intro hmem
                    rcases List.mem_map.mp hmem with ⟨s, hsmem, hname⟩
                    exact (hrest s hsmem).1 (by rw [hname]; exact List.mem_cons_self _ _)
                  · intro s hsmem
                    rcases List.mem_cons.mp hsmem with h1 | h1
                    · subst h1
                      exact ⟨hnseen, hne⟩
                    · rcases hrest s h1 with ⟨hs1, hs2⟩
                      exact ⟨fun hmem => hs1 (List.mem_cons_of_mem _ hmem), hs2⟩
      | pynull => simp only [parseWorkflowsAux] at h; exact Except.noConfusion h
      | pybool b => simp only [parseWorkflowsAux] at h; exact Except.noConfusion h
      | pyint n => simp only [parseWorkflowsAux] at h; exact Except.noConfusion h
      | pystr s => simp only [parseWorkflowsAux] at h; exact Except.noConfusion h
      | pylist xs => simp only [parseWorkflowsAux] at h; exact Except.noConfusion h

/-- Inversion of `load_manifest` success through all stages. -/
lemma load_manifest_ok_inv {input : Except String PyVal} {m : Manifest}
    (h : load_manifest input = .ok m) :
    ∃ kvs, _read_and_parse_yaml input = .ok kvs ∧
      _parse_externalize_code kvs = .ok m.externalize_code ∧
      _parse_tags kvs = .ok m.tags ∧
      _parse_workflows kvs = .ok m.workflows ∧
      _validate_workflow_tags m.workflows m.tags = .ok () := by
  simp only [load_manifest] at h
  cases hr : _read_and_parse_yaml input with
  | error e => simp only [hr] at h; exact Except.noConfusion h
  | ok kvs =>
      simp only [hr] at h
      cases hec : _parse_externalize_code kvs with
      | error e => simp only [hec] at h; exact Except.noConfusion h
      | ok b =>
          simp only [hec] at h
          cases htg : _parse_tags kvs with
          | error e => simp only [htg] at h; exact Except.noConfusion h
          | ok tagsL =>
              simp only [htg] at h
              cases hws : _parse_workflows kvs with
              | error e => simp only [hws] at h; exact Except.noConfusion h
              | ok ws =>
                  simp only [hws] at h
                  cases hv : _validate_workflow_tags ws tagsL with
                  | error e => simp only [hv] at h; exact Except.noConfusion h
                  | ok u =>
                      cases u
                      simp only [hv] at h
                      injection h with h
                      subst h
                      exact ⟨kvs, rfl, hec, htg, hws, hv⟩

/-- Inversion of `_parse_workflows` success. -/
lemma parse_workflows_ok_inv {kvs : List (String × PyVal)} {ws : List WorkflowSpec}
    (h : _parse_workflows kvs = .ok ws) :
    ∃ entries, lookupY kvs "workflows" = some (.pylist entries) ∧
      parseWorkflowsAux entries 0 [] = .ok ws := by
  cases hl : lookupY kvs "workflows" with
  | none => simp only [_parse_workflows, hl] at h; exact Except.noConfusion h
  | some v =>
      cases v with
      | pylist entries =>
          simp only [_parse_workflows, hl] at h
          exact ⟨entries, rfl, h⟩
      | pynull => simp only [_parse_workflows, hl] at h; exact Except.noConfusion h
      | pybool b => simp only [_parse_workflows, hl] at h; exact Except.noConfusion h
      | pyint n => simp only [_parse_workflows, hl] at h; exact Except.noConfusion h
      | pystr s => simp only [_parse_workflows, hl] at h; exact Except.noConfusion h
      | pydict d => simp only [_parse_workflows, hl] at h; exact Except.noConfusion h

/-- C4: every `Manifest` returned by `load_manifest` has pairwise-distinct,
non-empty workflow names; and a document with two entries of the same name,
or an entry whose name is absent, empty or not a string, makes `load_manifest`
raise instead of returning. -/
theorem c4_unique_nonempty_names :
    (∀ (input : Except String PyVal) (m : Manifest),
      load_manifest input = .ok m →
      (m.workflows.map WorkflowSpec.name).Nodup ∧ ∀ w ∈ m.workflows, w.name ≠ "") ∧
    (∀ (kvs : List (String × PyVal)) (entries : List PyVal),
      lookupY kvs "workflows" = some (.pylist entries) →
      ((∃ i j : Fin entries.length, i.val < j.val ∧
          entryName (entries.get i) = entryName (entries.get j) ∧
          (entryName (entries.get i)).isSome) ∨
        (∃ e ∈ entries, (∃ ekvs, e = .pydict ekvs) ∧ entryName e = none)) →
      ∃ err, load_manifest (.ok (.pydict kvs)) = .error err) := by
  constructor
  · intro input m h
    rcases load_manifest_ok_inv h with ⟨kvs, _, _, _, hws, _⟩
    rcases parse_workflows_ok_inv hws with ⟨entries, _, haux⟩
    rcases parseWorkflowsAux_ok haux with ⟨_, hnodup, hrest⟩
    exact ⟨hnodup, fun w hw => (hrest w hw).2⟩
  · intro kvs entries hlook hbad
    cases hl : load_manifest (.ok (.pydict kvs)) with
    | error err => exact ⟨err, rfl⟩
    | ok m =>
        exfalso
        rcases load_manifest_ok_inv hl with ⟨kvs', hr, _, _, hws, _⟩
        simp only [_read_and_parse_yaml] at hr
        injection hr with hr
        subst hr
        rcases parse_workflows_ok_inv hws with ⟨entries', hlook', haux⟩
        rw [hlook] at hlook'
        injection hlook' with hEq
        injection hEq with hEq
        subst hEq
        rcases parseWorkflowsAux_ok haux with ⟨hmap, hnodup, _⟩
        cases hbad with
        | inl hdup =>
            rcases hdup with ⟨i, j, hij, heq, _⟩
            have hnodup2 : (entries.map entryName).Nodup := by
              rw [hmap, show m.workflows.map (fun s => some s.name) =
                  (m.workflows.map WorkflowSpec.name).map some by
                    rw [List.map_map]; rfl]
              exact hnodup.map (Option.some_injective _)
            have key : ∀ k : Fin entries.length,
                (entries.map entryName).get
                    (Fin.cast (List.length_map entries entryName).symm k) =
                  entryName (entries.get k) := by
              intro k
              simp [List.get_eq_getElem, List.getElem_map]
            have hget : (entries.map entryName).get
                  (Fin.cast (List.length_map entries entryName).symm i) =
                (entries.map entryName).get
                  (Fin.cast (List.length_map entries entryName).symm j) := by
              rw [key i, key j]; exact heq
            have hcast := hnodup2.get_inj_iff.mp hget
            have hv : i.val = j.val := by
              have h2 := congrArg Fin.val hcast
              simpa using h2
            omega
        | inr hinv =>
            rcases hinv with ⟨e, hmem, _, hnone⟩
            have h1 : entryName e ∈ entries.map entryName :=
              List.mem_map_of_mem entryName hmem
            rw [hmap] at h1
            rcases List.mem_map.mp h1 with ⟨s, _, hs⟩
            rw [hnone] at hs
            exact Option.noConfusion hs

/-- A concrete document with a duplicated workflow name. -/
def c4DupKvs : List (String × PyVal) :=
  [("workflows", .pylist [.pydict [("name", .pystr "Dup")],
                          .pydict [("name", .pystr "Dup")]])]

/-- Witness for C4: the duplicate-name document is rejected. -/
theorem c4_unique_nonempty_names_witness :
    ∃ err, load_manifest (.ok (.pydict c4DupKvs)) = .error err :=
  c4_unique_nonempty_names.2 c4DupKvs
    [.pydict [("name", .pystr "Dup")], .pydict [("name", .pystr "Dup")]] rfl
    (Or.inl ⟨⟨0, by decide⟩, ⟨1, by decide⟩, by decide, rfl, by decide⟩)

/-! ## Self-written manifests are rejected (claim C9) -/

/-- The manifest document written by `create_project.run_create_project`
(the parse of the literal YAML in the scaffold: `externalize_code: true`,
`tags: {}`, `workflows: []`). -/
def scaffoldManifestDoc : PyVal :=
  .pydict [("externalize_code", .pybool true),
           ("tags", .pydict []),
           ("workflows", .pylist [])]

/-- The manifest document written by `export_workflows.run_export`
(the parse of `yaml.dump({"externalize_code": ..., "tags": <id-to-name dict>,
"workflows": [...]})`): the tags field is a mapping of tag id to tag name. -/
def exportManifestDoc (externalize_code : Bool) (tags_mapping : List (String × String))
    (workflowEntries : List PyVal) : PyVal :=
  .pydict [("externalize_code", .pybool externalize_code),
           ("tags", .pydict (tags_mapping.map (fun p => (p.1, PyVal.pystr p.2)))),
           ("workflows", .pylist workflowEntries)]

/-- C9: both manifest documents the tool itself writes carry `tags` as a
mapping, so `load_manifest` always rejects them with the tags-stage error. -/
theorem c9_self_written_manifests_rejected :
    (∀ (externalize_code : Bool) (tags_mapping : List (String × String))
        (workflowEntries : List PyVal),
      load_manifest (.ok (exportManifestDoc externalize_code tags_mapping workflowEntries)) =
        .error "'tags' must be a list") ∧
    load_manifest (.ok scaffoldManifestDoc) = .error "'tags' must be a list" := by
  refine ⟨fun externalize_code tags_mapping workflowEntries => ?_, rfl⟩
  rfl

/-! ## Code externalization (`export_workflows._externalize_workflow_code`)

File writes are modelled as an accumulated list of
`(path relative to the n8n root, content)` pairs, in write order (a repeated
path means the later write overwrites the earlier file).  A Python `TypeError`
(sanitizing a non-string node name when a code block is actually externalized)
is modelled as `none`. -/

/-- The recognized code-bearing parameter names.
Modelled from the spec: `CODE_FIELD_NAMES` lives in `n8n_gitops/render.py`,
which is absent from the repository snapshot; the specification fixes the set
as covering "pythonCode", "jsCode", "code" and "functionCode" — exactly the
names `_get_file_extension` distinguishes. -/
def CODE_FIELD_NAMES : List String := ["pythonCode", "jsCode", "code", "functionCode"]

/-- `export_workflows._get_file_extension`. -/
def _get_file_extension (field_name : String) : String :=
  if field_name = "pythonCode" then ".py"
  else if field_name = "jsCode" ∨ field_name = "code" ∨ field_name = "functionCode" then ".js"
  else ".txt"

/-- The include-directive marker literal. -/
def INCLUDE_MARKER : String := "@@n8n-gitops:include"

/-- The directive emitted by the export path:
`f"@@n8n-gitops:include {relative_path}"`. -/
def mkIncludeDirective (relative_path : String) : String :=
  "@@n8n-gitops:include " ++ relative_path

/-- `f"scripts/{safe_workflow_name}/{base_filename}"`. -/
def relScriptPath (safe_workflow_name base_filename : String) : String :=
  "scripts/" ++ safe_workflow_name ++ "/" ++ base_filename

/-- The per-node field loop of `_externalize_workflow_code`: each recognized
code field holding a non-blank string that is not already an include directive
is written out and replaced by a checksum-less directive.  `node_name = none`
means the node's `name` value is present but not a string, which makes Python
crash in `_sanitize_filename` as soon as a block is externalized. -/
def processFields (safe_workflow_name : String) (node_name : Option String) :
    List String → List (String × PyVal) →
      Option (List (String × PyVal) × Nat × List (String × String))
  | [], parameters => some (parameters, 0, [])
  | field_name :: restFields, parameters =>
      match lookupY parameters field_name with
      | some (.pystr code_value) =>
          if pyStrip code_value = "" then
            processFields safe_workflow_name node_name restFields parameters
          else if pyStartsWith (pyStrip code_value) INCLUDE_MARKER then
            processFields safe_workflow_name node_name restFields parameters
          else
            match node_name with
            | none => none
            | some nm =>
                let base := _sanitize_filename nm ++ _get_file_extension field_name
                let rel := relScriptPath safe_workflow_name base
                match processFields safe_workflow_name node_name restFields
                    (updateAssoc parameters field_name (.pystr (mkIncludeDirective rel))) with
                | none => none
                | some (ps, c, ws) => some (ps, c + 1, (rel, code_value) :: ws)
      | _ => processFields safe_workflow_name node_name restFields parameters

/-- `node.get("name", "unnamed")` as fed to `_sanitize_filename`: `none`
stands for a present but non-string name (a `TypeError` when sanitized). -/
def nodeNameOf (nkvs : List (String × PyVal)) : Option String :=
  match lookupY nkvs "name" with
  | none => some "unnamed"
  | some (.pystr s) => some s
  | some _ => none

/-- The node loop of `_externalize_workflow_code`: non-dictionary nodes and
nodes without a parameters dictionary are passed through unchanged. -/
def processNodes (safe_workflow_name : String) :
    List PyVal → Option (List PyVal × Nat × List (String × String))
  | [] => some ([], 0, [])
  | node :: rest =>
      match node with
      | .pydict nkvs =>
          match lookupY nkvs "parameters" with
          | some (.pydict parameters) =>
              match processFields safe_workflow_name (nodeNameOf nkvs)
                  CODE_FIELD_NAMES parameters with
              | none => none
              | some (ps, c, ws) =>
                  match processNodes safe_workflow_name rest with
                  | none => none
                  | some (rest2, c2, ws2) =>
                      some (.pydict (updateAssoc nkvs "parameters" (.pydict ps)) :: rest2,
                        c + c2, ws ++ ws2)
          | _ =>
              match processNodes safe_workflow_name rest with
              | none => none
              | some (rest2, c2, ws2) => some (node :: rest2, c2, ws2)
      | _ =>
          match processNodes safe_workflow_name rest with
          | none => none
          | some (rest2, c2, ws2) => some (node :: rest2, c2, ws2)

/-- `export_workflows._externalize_workflow_code`: deep-copies the workflow
(pure values here), externalizes inline code node by node, and returns the
modified workflow, the number of externalized blocks and the files written. -/
def _externalize_workflow_code (workflow : PyVal) (workflow_name : String) :
    Option (PyVal × Nat × List (String × String)) :=
  match workflow with
  | .pydict kvs =>
      match lookupY kvs "nodes" with
      | some (.pylist nodes) =>
          match processNodes (_sanitize_filename workflow_name) nodes with
          | none => none
          | some (nodes2, c, ws) =>
              some (.pydict (updateAssoc kvs "nodes" (.pylist nodes2)), c, ws)
      | some _ => some (workflow, 0, [])
      | none => some (workflow, 0, [])
  | _ => none

/-! ### Association-list lemmas -/

lemma lookupY_updateAssoc_self {kvs : List (String × PyVal)} {key : String}
    {w : PyVal} (v : PyVal) (h : lookupY kvs key = some w) :
    lookupY (updateAssoc kvs key v) key = some v := by
  induction kvs with
  | nil => simp [lookupY] at h
  | cons p rest ih =>
      obtain ⟨k, x⟩ := p
      by_cases hk : k = key
      · simp [updateAssoc, lookupY, hk]
      · simp only [lookupY, if_neg hk] at h
        simp [updateAssoc, lookupY, hk, ih h]

lemma lookupY_updateAssoc_ne {kvs : List (String × PyVal)} {key f : String}
    (v : PyVal) (h : f ≠ key) :
    lookupY (updateAssoc kvs key v) f = lookupY kvs f := by
  induction kvs with
  | nil =>
      have hkf : ¬ key = f := fun hh => h hh.symm
      simp [updateAssoc, lookupY, hkf]
  | cons p rest ih =>
      obtain ⟨k, x⟩ := p
      by_cases hk : k = key
      · subst hk
        have hkf : ¬ k = f := fun hh => h hh.symm
        simp [updateAssoc, lookupY, hkf]
      · simp [updateAssoc, lookupY, hk, ih]

lemma updateAssoc_self {kvs : List (String × PyVal)} {key : String} {v : PyVal}
    (h : lookupY kvs key = some v) : updateAssoc kvs key v = kvs := by
  induction kvs with
  | nil => simp [lookupY] at h
  | cons p rest ih =>
      obtain ⟨k, x⟩ := p
      by_cases hk : k = key
      · simp only [lookupY, if_pos hk] at h
        injection h with h
        simp [updateAssoc, hk, h]
      · simp only [lookupY, if_neg hk] at h
        simp [updateAssoc, hk, ih h]

/-! ### The emitted directive survives a strip and starts with the marker -/

lemma ext_cases (f : String) :
    _get_file_extension f = ".py" ∨ _get_file_extension f = ".js" ∨
      _get_file_extension f = ".txt" := by
  unfold _get_file_extension
  split_ifs <;> tauto

lemma head?_decomp {α : Type} {l : List α} {a : α} (h : l.head? = some a) :
    ∃ t, l = a :: t := by
  cases l with
  | nil => cases h
  | cons x xs =>
      injection h with h
      exact ⟨xs, by rw [h]⟩

lemma pyStrip_eq_self {s : String} {a b : Char} (h1 : s.data.head? = some a)
    (ha : a.isWhitespace = false) (h2 : s.data.getLast? = some b)
    (hb : b.isWhitespace = false) : pyStrip s = s := by
  obtain ⟨t, ht⟩ := head?_decomp h1
  have hfront : s.data.dropWhile Char.isWhitespace = s.data := by
    rw [ht]
    simp [List.dropWhile_cons, ha]
  have hrev : s.data.reverse.head? = some b := by rw [List.head?_reverse]; exact h2
  obtain ⟨t2, ht2⟩ := head?_decomp hrev
  have hback : s.data.reverse.dropWhile Char.isWhitespace = s.data.reverse := by
    rw [ht2]
    simp [List.dropWhile_cons, hb]
  unfold pyStrip
  rw [hfront, hback, List.reverse_reverse]

lemma mkIncludeDirective_head (rel : String) :
    (mkIncludeDirective rel).data.head? = some '@' := by
  unfold mkIncludeDirective
  rw [String.data_append]
  rfl

lemma generatedRel_getLast (sw nm f : String) :
    ∃ c, (relScriptPath sw (_sanitize_filename nm ++ _get_file_extension f)).data.getLast? =
        some c ∧ c.isWhitespace = false := by
  rcases ext_cases f with hf | hf | hf
  · refine ⟨'y', ?_, by decide⟩
    unfold relScriptPath
    rw [String.data_append, List.getLast?_append, String.data_append,
      List.getLast?_append, hf]
    rfl
  · refine ⟨'s', ?_, by decide⟩
    unfold relScriptPath
    rw [String.data_append, List.getLast?_append, String.data_append,
      List.getLast?_append, hf]
    rfl
  · refine ⟨'t', ?_, by decide⟩
    unfold relScriptPath
    rw [String.data_append, List.getLast?_append, String.data_append,
      List.getLast?_append, hf]
    rfl

lemma generated_directive_getLast (sw nm f : String) :
    ∃ c, (mkIncludeDirective (relScriptPath sw
        (_sanitize_filename nm ++ _get_file_extension f))).data.getLast? =
      some c ∧ c.isWhitespace = false := by
  rcases generatedRel_getLast sw nm f with ⟨c, hc, hcw⟩
  refine ⟨c, ?_, hcw⟩
  unfold mkIncludeDirective
  rw [String.data_append, List.getLast?_append, hc]
  rfl

/-- A directive emitted by the export path is unchanged by `strip()` and
starts with the include marker, so a second externalization pass skips it. -/
lemma generated_directive_skipped (sw nm f : String) :
    pyStrip (mkIncludeDirective (relScriptPath sw
        (_sanitize_filename nm ++ _get_file_extension f))) =
      mkIncludeDirective (relScriptPath sw
        (_sanitize_filename nm ++ _get_file_extension f)) ∧
    pyStartsWith (mkIncludeDirective (relScriptPath sw
        (_sanitize_filename nm ++ _get_file_extension f))) INCLUDE_MARKER = true ∧
    mkIncludeDirective (relScriptPath sw
        (_sanitize_filename nm ++ _get_file_extension f)) ≠ "" := by
  rcases generated_directive_getLast sw nm f with ⟨c, hc, hcw⟩
  refine ⟨pyStrip_eq_self (mkIncludeDirective_head _) (by decide) hc hcw, ?_, ?_⟩
  · unfold pyStartsWith
    rw [List.isPrefixOf_iff_prefix]
    unfold mkIncludeDirective
    rw [String.data_append,
      show ("@@n8n-gitops:include " : String).data =
        ("@@n8n-gitops:include" : String).data ++ [' '] from rfl,
      List.append_assoc]
    exact List.prefix_append _ _
  · intro h
    have := mkIncludeDirective_head (relScriptPath sw
      (_sanitize_filename nm ++ _get_file_extension f))
    rw [h] at this
    cases this

/-! ### Externalization touches only the recognized code fields -/

lemma processFields_stable {sw : String} {nn : Option String} {fields : List String}
    {ps ps' : List (String × PyVal)} {c : Nat} {ws : List (String × String)}
    (h : processFields sw nn fields ps = some (ps', c, ws)) :
    ∀ f, f ∉ fields → lookupY ps' f = lookupY ps f := by
  induction fields generalizing ps ps' c ws with
  | nil =>
      simp only [processFields, Option.some.injEq, Prod.mk.injEq] at h
      obtain ⟨h1, _, _⟩ := h
      subst h1
      intro f _
      rfl
  | cons fl fs ih =>
      intro f hf
      have hfl : f ≠ fl := fun he => hf (he ▸ List.mem_cons_self fl fs)
      have hfs : f ∉ fs := fun he => hf (List.mem_cons_of_mem _ he)
      cases hv : lookupY ps fl with
      | none =>
          simp only [processFields, hv] at h
          exact ih h f hfs
      | some v =>
          cases v with
          | pystr code =>
              simp only [processFields, hv] at h
              by_cases h1 : pyStrip code = ""
              · rw [if_pos h1] at h
                exact ih h f hfs
              · rw [if_neg h1] at h
                by_cases h2 : pyStartsWith (pyStrip code) INCLUDE_MARKER = true
                · rw [if_pos h2] at h
                  exact ih h f hfs
                · rw [if_neg h2] at h
                  cases nn with
                  | none => exact Option.noConfusion h
                  | some nm =>
                      cases hrec : processFields sw (some nm) fs
                          (updateAssoc ps fl (.pystr (mkIncludeDirective (relScriptPath sw
                            (_sanitize_filename nm ++ _get_file_extension fl))))) with
                      | none =>
                          simp only [hrec] at h
                          exact Option.noConfusion h
                      | some res =>
                          obtain ⟨ps2, c2, ws2⟩ := res
                          simp only [hrec, Option.some.injEq, Prod.mk.injEq] at h
                          obtain ⟨hps, _, _⟩ := h
                          subst hps
                          rw [ih hrec f hfs, lookupY_updateAssoc_ne _ hfl]
          | pynull =>
              simp only [processFields, hv] at h
              exact ih h f hfs
          | pybool b =>
              simp only [processFields, hv] at h
              exact ih h f hfs
          | pyint n =>
              simp only [processFields, hv] at h
              exact ih h f hfs
          | pylist xs =>
              simp only [processFields, hv] at h
              exact ih h f hfs
          | pydict d =>
              simp only [processFields, hv] at h
              exact ih h f hfs

/-- Second pass over the same fields changes nothing: every value the first
pass leaves is either still skippable or is an emitted directive, which the
skip check recognizes. -/
lemma processFields_idem {sw : String} {nn : Option String} {fields : List String}
    {ps ps' : List (String × PyVal)} {c : Nat} {ws : List (String × String)}
    (hnd : fields.Nodup)
    (h : processFields sw nn fields ps = some (ps', c, ws)) :
    processFields sw nn fields ps' = some (ps', 0, []) := by
  induction fields generalizing ps ps' c ws with
  | nil =>
      simp only [processFields, Option.some.injEq, Prod.mk.injEq] at h
      obtain ⟨h1, _, _⟩ := h
      subst h1
      rfl
  | cons fl fs ih =>
      rw [List.nodup_cons] at hnd
      obtain ⟨hflfs, hndfs⟩ := hnd
      cases hv : lookupY ps fl with
      | none =>
          simp only [processFields, hv] at h
          have hv2 : lookupY ps' fl = none := (processFields_stable h fl hflfs).trans hv
          simp only [processFields, hv2]
          exact ih hndfs h
      | some v =>
          cases v with
          | pystr code =>
              simp only [processFields, hv] at h
              by_cases h1 : pyStrip code = ""
              · rw [if_pos h1] at h
                have hv2 : lookupY ps' fl = some (.pystr code) :=
                  (processFields_stable h fl hflfs).trans hv
                simp only [processFields, hv2, if_pos h1]
                exact ih hndfs h
              · rw [if_neg h1] at h
                by_cases h2 : pyStartsWith (pyStrip code) INCLUDE_MARKER = true
                · rw [if_pos h2] at h
                  have hv2 : lookupY ps' fl = some (.pystr code) :=
                    (processFields_stable h fl hflfs).trans hv
                  simp only [processFields, hv2, if_neg h1, if_pos h2]
                  exact ih hndfs h
                · rw [if_neg h2] at h
                  cases nn with
                  | none => exact Option.noConfusion h
                  | some nm =>
                      cases hrec : processFields sw (some nm) fs
                          (updateAssoc ps fl (.pystr (mkIncludeDirective (relScriptPath sw
                            (_sanitize_filename nm ++ _get_file_extension fl))))) with
                      | none =>
                          simp only [hrec] at h
                          exact Option.noConfusion h
                      | some res =>
                          obtain ⟨ps2, c2, ws2⟩ := res
                          simp only [hrec, Option.some.injEq, Prod.mk.injEq] at h
                          obtain ⟨hps, _, _⟩ := h
                          subst hps
                          have hv2 : lookupY ps2 fl = some (.pystr (mkIncludeDirective
                              (relScriptPath sw (_sanitize_filename nm ++ _get_file_extension fl)))) := by
                            rw [processFields_stable hrec fl hflfs,
                              lookupY_updateAssoc_self _ hv]
                          rcases generated_directive_skipped sw nm fl with ⟨hstrip, hstarts, hne⟩
                          simp only [processFields, hv2, hstrip, if_neg hne, if_pos hstarts]
                          exact ih hndfs hrec
          | pynull =>
              simp only [processFields, hv] at h
              have hv2 : lookupY ps' fl = some .pynull :=
                (processFields_stable h fl hflfs).trans hv
              simp only [processFields, hv2]
              exact ih hndfs h
          | pybool b =>
              simp only [processFields, hv] at h
              have hv2 : lookupY ps' fl = some (.pybool b) :=
                (processFields_stable h fl hflfs).trans hv
              simp only [processFields, hv2]
              exact ih hndfs h
          | pyint n =>
              simp only [processFields, hv] at h
              have hv2 : lookupY ps' fl = some (.pyint n) :=
                (processFields_stable h fl hflfs).trans hv
              simp only [processFields, hv2]
              exact ih hndfs h
          | pylist xs =>
              simp only [processFields, hv] at h
              have hv2 : lookupY ps' fl = some (.pylist xs) :=
                (processFields_stable h fl hflfs).trans hv
              simp only [processFields, hv2]
              exact ih hndfs h
          | pydict d =>
              simp only [processFields, hv] at h
              have hv2 : lookupY ps' fl = some (.pydict d) :=
                (processFields_stable h fl hflfs).trans hv
              simp only [processFields, hv2]
              exact ih hndfs h

/-- Second pass over the node list of an externalized workflow externalizes
nothing and returns the same nodes. -/
lemma processNodes_idem {sw : String} {nodes nodes' : List PyVal} {c : Nat}
    {ws : List (String × String)}
    (h : processNodes sw nodes = some (nodes', c, ws)) :
    processNodes sw nodes' = some (nodes', 0, []) := by
  induction nodes generalizing nodes' c ws with
  | nil =>
      simp only [processNodes, Option.some.injEq, Prod.mk.injEq] at h
      obtain ⟨h1, _, _⟩ := h
      subst h1
      rfl
  | cons node rest ih =>
      cases node with
      | pydict nkvs =>
          cases hp : lookupY nkvs "parameters" with
          | some pv =>
              cases pv with
              | pydict params =>
                  simp only [processNodes, hp] at h
                  cases hf : processFields sw (nodeNameOf nkvs) CODE_FIELD_NAMES params with
                  | none =>
                      simp only [hf] at h
                      exact Option.noConfusion h
                  | some res =>
                      obtain ⟨ps, cf, wsf⟩ := res
                      simp only [hf] at h
                      cases hr : processNodes sw rest with
                      | none =>
                          simp only [hr] at h
                          exact Option.noConfusion h
                      | some res2 =>
                          obtain ⟨rest2, c2, ws2⟩ := res2
                          simp only [hr, Option.some.injEq, Prod.mk.injEq] at h
                          obtain ⟨hn, _, _⟩ := h
                          subst hn
                          have hp2 : lookupY (updateAssoc nkvs "parameters" (.pydict ps))
                              "parameters" = some (.pydict ps) :=
                            lookupY_updateAssoc_self _ hp
                          have hname2 : nodeNameOf (updateAssoc nkvs "parameters" (.pydict ps)) =
                              nodeNameOf nkvs := by
                            unfold nodeNameOf
                            rw [lookupY_updateAssoc_ne _ (by decide)]
                          have hf2 : processFields sw (nodeNameOf nkvs) CODE_FIELD_NAMES ps =
                              some (ps, 0, []) :=
                            processFields_idem (by decide) hf
                          simp only [processNodes, hp2, hname2, hf2, ih hr,
                            updateAssoc_self hp2, Nat.add_zero, List.append_nil]
              | pynull =>
                  simp only [processNodes, hp] at h
                  cases hr : processNodes sw rest with
                  | none => simp only [hr] at h; exact Option.noConfusion h
                  | some res2 =>
                      obtain ⟨rest2, c2, ws2⟩ := res2
                      simp only [hr, Option.some.injEq, Prod.mk.injEq] at h
                      obtain ⟨hn, _, _⟩ := h
                      subst hn
                      simp only [processNodes, hp, ih hr]
              | pybool b =>
                  simp only [processNodes, hp] at h
                  cases hr : processNodes sw rest with
                  | none => simp only [hr] at h; exact Option.noConfusion h
                  | some res2 =>
                      obtain ⟨rest2, c2, ws2⟩ := res2
                      simp only [hr, Option.some.injEq, Prod.mk.injEq] at h
                      obtain ⟨hn, _, _⟩ := h
                      subst hn
                      simp only [processNodes, hp, ih hr]
              | pyint n =>
                  simp only [processNodes, hp] at h
                  cases hr : processNodes sw rest with
                  | none => simp only [hr] at h; exact Option.noConfusion h
                  | some res2 =>
                      obtain ⟨rest2, c2, ws2⟩ := res2
                      simp only [hr, Option.some.injEq, Prod.mk.injEq] at h
                      obtain ⟨hn, _, _⟩ := h
                      subst hn
                      simp only [processNodes, hp, ih hr]
              | pystr s =>
                  simp only [processNodes, hp] at h
                  cases hr : processNodes sw rest with
                  | none => simp only [hr] at h; exact Option.noConfusion h
                  | some res2 =>
                      obtain ⟨rest2, c2, ws2⟩ := res2
                      simp only [hr, Option.some.injEq, Prod.mk.injEq] at h
                      obtain ⟨hn, _, _⟩ := h
                      subst hn
                      simp only [processNodes, hp, ih hr]
              | pylist xs =>
                  simp only [processNodes, hp] at h
                  cases hr : processNodes sw rest with
                  | none => simp only [hr] at h; exact Option.noConfusion h
                  | some res2 =>
                      obtain ⟨rest2, c2, ws2⟩ := res2
                      simp only [hr, Option.some.injEq, Prod.mk.injEq] at h
                      obtain ⟨hn, _, _⟩ := h
                      subst hn
                      simp only [processNodes, hp, ih hr]
          | none =>
              simp only [processNodes, hp] at h
              cases hr : processNodes sw rest with
              | none => simp only [hr] at h; exact Option.noConfusion h
              | some res2 =>
                  obtain ⟨rest2, c2, ws2⟩ := res2
                  simp only [hr, Option.some.injEq, Prod.mk.injEq] at h
                  obtain ⟨hn, _, _⟩ := h
                  subst hn
                  simp only [processNodes, hp, ih hr]
      | pynull =>
          simp only [processNodes] at h
          cases hr : processNodes sw rest with
          | none => simp only [hr] at h; exact Option.noConfusion h
          | some res2 =>
              obtain ⟨rest2, c2, ws2⟩ := res2
              simp only [hr, Option.some.injEq, Prod.mk.injEq] at h
              obtain ⟨hn, _, _⟩ := h
              subst hn
              simp only [processNodes, ih hr]
      | pybool b =>
          simp only [processNodes] at h
          cases hr : processNodes sw rest with
          | none => simp only [hr] at h; exact Option.noConfusion h
          | some res2 =>
              obtain ⟨rest2, c2, ws2⟩ := res2
              simp only [hr, Option.some.injEq, Prod.mk.injEq] at h
              obtain ⟨hn, _, _⟩ := h
              subst hn
              simp only [processNodes, ih hr]
      | pyint n =>
          simp only [processNodes] at h
          cases hr : processNodes sw rest with
          | none => simp only [hr] at h; exact Option.noConfusion h
          | some res2 =>
              obtain ⟨rest2, c2, ws2⟩ := res2
              simp only [hr, Option.some.injEq, Prod.mk.injEq] at h
              obtain ⟨hn, _, _⟩ := h
              subst hn
              simp only [processNodes, ih hr]
      | pystr s =>
          simp only [processNodes] at h
          cases hr : processNodes sw rest with
          | none => simp only [hr] at h; exact Option.noConfusion h
          | some res2 =>
              obtain ⟨rest2, c2, ws2⟩ := res2
              simp only [hr, Option.some.injEq, Prod.mk.injEq] at h
              obtain ⟨hn, _, _⟩ := h
              subst hn
              simp only [processNodes, ih hr]
      | pylist xs =>
          simp only [processNodes] at h
          cases hr : processNodes sw rest with
          | none => simp only [hr] at h; exact Option.noConfusion h
          | some res2 =>
              obtain ⟨rest2, c2, ws2⟩ := res2
              simp only [hr, Option.some.injEq, Prod.mk.injEq] at h
              obtain ⟨hn, _, _⟩ := h
              subst hn
              simp only [processNodes, ih hr]

/-- C10: `_externalize_workflow_code` is pure here (the Python function
deep-copies its argument before mutating), and it is idempotent: run on its
own output it externalizes zero code blocks, writes no files, and returns
that output unchanged. -/
theorem c10_externalize_idempotent (workflow : PyVal) (workflow_name : String)
    (w' : PyVal) (k : Nat) (files : List (String × String))
    (h : _externalize_workflow_code workflow workflow_name = some (w', k, files)) :
    _externalize_workflow_code w' workflow_name = some (w', 0, []) := by
  cases workflow with
  | pydict kvs =>
      cases hn : lookupY kvs "nodes" with
      | some nv =>
          cases nv with
          | pylist nodes =>
              simp only [_externalize_workflow_code, hn] at h
              cases hpn : processNodes (_sanitize_filename workflow_name) nodes with
              | none =>
                  simp only [hpn] at h
                  exact Option.noConfusion h
              | some res =>
                  obtain ⟨nodes2, c2, ws2⟩ := res
                  simp only [hpn, Option.some.injEq, Prod.mk.injEq] at h
                  obtain ⟨hw, _, _⟩ := h
                  subst hw
                  have hn2 : lookupY (updateAssoc kvs "nodes" (.pylist nodes2)) "nodes" =
                      some (.pylist nodes2) :=
                    lookupY_updateAssoc_self _ hn
                  simp only [_externalize_workflow_code, hn2, processNodes_idem hpn,
                    updateAssoc_self hn2]
          | pynull =>
              simp only [_externalize_workflow_code, hn, Option.some.injEq,
                Prod.mk.injEq] at h
              obtain ⟨hw, _, _⟩ := h
              subst hw
              simp only [_externalize_workflow_code, hn]
          | pybool b =>
              simp only [_externalize_workflow_code, hn, Option.some.injEq,
                Prod.mk.injEq] at h
              obtain ⟨hw, _, _⟩ := h
              subst hw
              simp only [_externalize_workflow_code, hn]
          | pyint n2 =>
              simp only [_externalize_workflow_code, hn, Option.some.injEq,
                Prod.mk.injEq] at h
              obtain ⟨hw, _, _⟩ := h
              subst hw
              simp only [_externalize_workflow_code, hn]
          | pystr s =>
              simp only [_externalize_workflow_code, hn, Option.some.injEq,
                Prod.mk.injEq] at h
              obtain ⟨hw, _, _⟩ := h
              subst hw
              simp only [_externalize_workflow_code, hn]
          | pydict d =>
              simp only [_externalize_workflow_code, hn, Option.some.injEq,
                Prod.mk.injEq] at h
              obtain ⟨hw, _, _⟩ := h
              subst hw
              simp only [_externalize_workflow_code, hn]
      | none =>
          simp only [_externalize_workflow_code, hn, Option.some.injEq,
            Prod.mk.injEq] at h
          obtain ⟨hw, _, _⟩ := h
          subst hw
          simp only [_externalize_workflow_code, hn]
  | pynull => exact Option.noConfusion h
  | pybool b => exact Option.noConfusion h
  | pyint n => exact Option.noConfusion h
  | pystr s => exact Option.noConfusion h
  | pylist xs => exact Option.noConfusion h

/-- A concrete single-node workflow with inline JavaScript. -/
def c10InWorkflow : PyVal :=
  .pydict [("name", .pystr "Test"),
           ("nodes", .pylist [.pydict [("name", .pystr "Node"),
             ("parameters", .pydict [("jsCode", .pystr "console.log(1);")])]])]

/-- Its externalized form: the code replaced by the checksum-less directive. -/
def c10OutWorkflow : PyVal :=
  .pydict [("name", .pystr "Test"),
           ("nodes", .pylist [.pydict [("name", .pystr "Node"),
             ("parameters", .pydict [("jsCode",
               .pystr "@@n8n-gitops:include scripts/Test/Node.js")])]])]

/-- Witness for C10 at a concrete workflow. -/
theorem c10_externalize_idempotent_witness :
    _externalize_workflow_code c10OutWorkflow "Test" = some (c10OutWorkflow, 0, []) :=
  c10_externalize_idempotent c10InWorkflow "Test" c10OutWorkflow 1
    [("scripts/Test/Node.js", "console.log(1);")] rfl

/-! ## Checksum-less directives (claim C7) -/

/-- The string values held by recognized code fields of a parameters dict. -/
def codeValuesOfParams (parameters : List (String × PyVal)) : List String :=
  CODE_FIELD_NAMES.filterMap (fun f =>
    match lookupY parameters f with
    | some (.pystr v) => some v
    | _ => none)

/-- The code values of one node. -/
def nodeCodeValues (node : PyVal) : List String :=
  match node with
  | .pydict nkvs =>
      match lookupY nkvs "parameters" with
      | some (.pydict ps) => codeValuesOfParams ps
      | _ => []
  | _ => []

/-- All code-field string values of a workflow document. -/
def codeParamValues (w : PyVal) : List String :=
  match w with
  | .pydict kvs =>
      match lookupY kvs "nodes" with
      | some (.pylist nodes) => (nodes.map nodeCodeValues).flatten
      | _ => []
  | _ => []

/-- After the field loop, every code field holds its old value or an emitted
directive for some node name and field. -/
lemma processFields_values {sw : String} {nn : Option String} {fields : List String}
    {ps ps' : List (String × PyVal)} {c : Nat} {ws : List (String × String)}
    (h : processFields sw nn fields ps = some (ps', c, ws)) :
    ∀ f, lookupY ps' f = lookupY ps f ∨
      ∃ nm fl, lookupY ps' f = some (.pystr (mkIncludeDirective
        (relScriptPath sw (_sanitize_filename nm ++ _get_file_extension fl)))) := by
  induction fields generalizing ps ps' c ws with
  | nil =>
      simp only [processFields, Option.some.injEq, Prod.mk.injEq] at h
      obtain ⟨h1, _, _⟩ := h
      subst h1
      intro f
      exact Or.inl rfl
  | cons fl fs ih =>
      intro f
      cases hv : lookupY ps fl with
      | none =>
          simp only [processFields, hv] at h
          exact ih h f
      | some v =>
          cases v with
          | pystr code =>
              simp only [processFields, hv] at h
              by_cases h1 : pyStrip code = ""
              · rw [if_pos h1] at h
                exact ih h f
              · rw [if_neg h1] at h
                by_cases h2 : pyStartsWith (pyStrip code) INCLUDE_MARKER = true
                · rw [if_pos h2] at h
                  exact ih h f
                · rw [if_neg h2] at h
                  cases nn with
                  | none => exact Option.noConfusion h
                  | some nm =>
                      cases hrec : processFields sw (some nm) fs
                          (updateAssoc ps fl (.pystr (mkIncludeDirective (relScriptPath sw
                            (_sanitize_filename nm ++ _get_file_extension fl))))) with
                      | none =>
                          simp only [hrec] at h
                          exact Option.noConfusion h
                      | some res =>
                          obtain ⟨ps2, c2, ws2⟩ := res
                          simp only [hrec, Option.some.injEq, Prod.mk.injEq] at h
                          obtain ⟨hps, _, _⟩ := h
                          subst hps
                          rcases ih hrec f with hL | ⟨nm2, fl2, hR⟩
                          · by_cases hffl : f = fl
                            · subst hffl
                              refine Or.inr ⟨nm, f, ?_⟩
                              rw [hL, lookupY_updateAssoc_self _ hv]
                            · left
                              rw [hL, lookupY_updateAssoc_ne _ hffl]
                          · exact Or.inr ⟨nm2, fl2, hR⟩
          | pynull =>
              simp only [processFields, hv] at h
              exact ih h f
          | pybool b =>
              simp only [processFields, hv] at h
              exact ih h f
          | pyint n =>
              simp only [processFields, hv] at h
              exact ih h f
          | pylist xs =>
              simp only [processFields, hv] at h
              exact ih h f
          | pydict d =>
              simp only [processFields, hv] at h
              exact ih h f

lemma codeValues_sub {sw : String} {ps ps' : List (String × PyVal)}
    (hval : ∀ f, lookupY ps' f = lookupY ps f ∨
      ∃ nm fl, lookupY ps' f = some (.pystr (mkIncludeDirective
        (relScriptPath sw (_sanitize_filename nm ++ _get_file_extension fl))))) :
    ∀ v ∈ codeValuesOfParams ps', v ∈ codeValuesOfParams ps ∨
      ∃ nm fl, v = mkIncludeDirective
        (relScriptPath sw (_sanitize_filename nm ++ _get_file_extension fl)) := by
  intro v hv
  rcases List.mem_filterMap.mp hv with ⟨f, hfmem, hf⟩
  rcases hval f with hL | ⟨nm, fl, hR⟩
  · rw [hL] at hf
    exact Or.inl (List.mem_filterMap.mpr ⟨f, hfmem, hf⟩)
  · rw [hR] at hf
    injection hf with hf
    exact Or.inr ⟨nm, fl, hf.symm⟩

/-- After the node loop, every code value is an old value or an emitted
directive. -/
lemma processNodes_values {sw : String} {nodes nodes' : List PyVal} {c : Nat}
    {ws : List (String × String)}
    (h : processNodes sw nodes = some (nodes', c, ws)) :
    ∀ v ∈ (nodes'.map nodeCodeValues).flatten,
      v ∈ (nodes.map nodeCodeValues).flatten ∨
      ∃ nm fl, v = mkIncludeDirective
        (relScriptPath sw (_sanitize_filename nm ++ _get_file_extension fl)) := by
  induction nodes generalizing nodes' c ws with
  | nil =>
      simp only [processNodes, Option.some.injEq, Prod.mk.injEq] at h
      obtain ⟨h1, _, _⟩ := h
      subst h1
      intro v hv
      simp at hv
  | cons node rest ih =>
      have hpass : ∀ {rest2 : List PyVal} {c2 : Nat} {ws2 : List (String × String)},
          processNodes sw rest = some (rest2, c2, ws2) →
          ∀ v ∈ ((node :: rest2).map nodeCodeValues).flatten,
            v ∈ ((node :: rest).map nodeCodeValues).flatten ∨
            ∃ nm fl, v = mkIncludeDirective
              (relScriptPath sw (_sanitize_filename nm ++ _get_file_extension fl)) := by
        intro rest2 c2 ws2 hr v hv
        rw [List.map_cons, List.flatten_cons, List.mem_append] at hv
        rcases hv with hv | hv
        · exact Or.inl (by
            rw [List.map_cons, List.flatten_cons, List.mem_append]
            exact Or.inl hv)
        · rcases ih hr v hv with hL | hR
          · exact Or.inl (by
              rw [List.map_cons, List.flatten_cons, List.mem_append]
              exact Or.inr hL)
          · exact Or.inr hR
      cases node with
      | pydict nkvs =>
          cases hp : lookupY nkvs "parameters" with
          | some pv =>
              cases pv with
              | pydict params =>
                  simp only [processNodes, hp] at h
                  cases hf : processFields sw (nodeNameOf nkvs) CODE_FIELD_NAMES params with
                  | none =>
                      simp only [hf] at h
                      exact Option.noConfusion h
                  | some res =>
                      obtain ⟨ps, cf, wsf⟩ := res
                      simp only [hf] at h
                      cases hr : processNodes sw rest with
                      | none =>
                          simp only [hr] at h
                          exact Option.noConfusion h
                      | some res2 =>
                          obtain ⟨rest2, c2, ws2⟩ := res2
                          simp only [hr, Option.some.injEq, Prod.mk.injEq] at h
                          obtain ⟨hn, _, _⟩ := h
                          subst hn
                          intro v hv
                          rw [List.map_cons, List.flatten_cons, List.mem_append] at hv
                          rcases hv with hv | hv
                          · have hlk := lookupY_updateAssoc_self (PyVal.pydict ps) hp
                            have hval : nodeCodeValues (.pydict (updateAssoc nkvs
                                "parameters" (.pydict ps))) = codeValuesOfParams ps := by
                              simp only [nodeCodeValues, hlk]
                            rw [hval] at hv
                            rcases codeValues_sub (processFields_values hf) v hv with hL | hR
                            · refine Or.inl ?_
                              rw [List.map_cons, List.flatten_cons, List.mem_append]
                              refine Or.inl ?_
                              simp only [nodeCodeValues, hp]
                              exact hL
                            · exact Or.inr hR
                          · rcases ih hr v hv with hL | hR
                            · refine Or.inl ?_
                              rw [List.map_cons, List.flatten_cons, List.mem_append]
                              exact Or.inr hL
                            · exact Or.inr hR
              | pynull =>
                  simp only [processNodes, hp] at h
                  cases hr : processNodes sw rest with
                  | none => simp only [hr] at h; exact Option.noConfusion h
                  | some res2 =>
                      obtain ⟨rest2, c2, ws2⟩ := res2
                      simp only [hr, Option.some.injEq, Prod.mk.injEq] at h
                      obtain ⟨hn, _, _⟩ := h
                      subst hn
                      exact hpass hr
              | pybool b =>
                  simp only [processNodes, hp] at h
                  cases hr : processNodes sw rest with
                  | none => simp only [hr] at h; exact Option.noConfusion h
                  | some res2 =>
                      obtain ⟨rest2, c2, ws2⟩ := res2
                      simp only [hr, Option.some.injEq, Prod.mk.injEq] at h
                      obtain ⟨hn, _, _⟩ := h
                      subst hn
                      exact hpass hr
              | pyint n =>
                  simp only [processNodes, hp] at h
                  cases hr : processNodes sw rest with
                  | none => simp only [hr] at h; exact Option.noConfusion h
                  | some res2 =>
                      obtain ⟨rest2, c2, ws2⟩ := res2
                      simp only [hr, Option.some.injEq, Prod.mk.injEq] at h
                      obtain ⟨hn, _, _⟩ := h
                      subst hn
                      exact hpass hr
              | pystr s =>
                  simp only [processNodes, hp] at h
                  cases hr : processNodes sw rest with
                  | none => simp only [hr] at h; exact Option.noConfusion h
                  | some res2 =>
                      obtain ⟨rest2, c2, ws2⟩ := res2
                      simp only [hr, Option.some.injEq, Prod.mk.injEq] at h
                      obtain ⟨hn, _, _⟩ := h
                      subst hn
                      exact hpass hr
              | pylist xs =>
                  simp only [processNodes, hp] at h
                  cases hr : processNodes sw rest with
                  | none => simp only [hr] at h; exact Option.noConfusion h
                  | some res2 =>
                      obtain ⟨rest2, c2, ws2⟩ := res2
                      simp only [hr, Option.some.injEq, Prod.mk.injEq] at h
                      obtain ⟨hn, _, _⟩ := h
                      subst hn
                      exact hpass hr
          | none =>
              simp only [processNodes, hp] at h
              cases hr : processNodes sw rest with
              | none => simp only [hr] at h; exact Option.noConfusion h
              | some res2 =>
                  obtain ⟨rest2, c2, ws2⟩ := res2
                  simp only [hr, Option.some.injEq, Prod.mk.injEq] at h
                  obtain ⟨hn, _, _⟩ := h
                  subst hn
                  exact hpass hr
      | pynull =>
          simp only [processNodes] at h
          cases hr : processNodes sw rest with
          | none => simp only [hr] at h; exact Option.noConfusion h
          | some res2 =>
              obtain ⟨rest2, c2, ws2⟩ := res2
              simp only [hr, Option.some.injEq, Prod.mk.injEq] at h
              obtain ⟨hn, _, _⟩ := h
              subst hn
              exact hpass hr
      | pybool b =>
          simp only [processNodes] at h
          cases hr : processNodes sw rest with
          | none => simp only [hr] at h; exact Option.noConfusion h
          | some res2 =>
              obtain ⟨rest2, c2, ws2⟩ := res2
              simp only [hr, Option.some.injEq, Prod.mk.injEq] at h
              obtain ⟨hn, _, _⟩ := h
              subst hn
              exact hpass hr
      | pyint n =>
          simp only [processNodes] at h
          cases hr : processNodes sw rest with
          | none => simp only [hr] at h; exact Option.noConfusion h
          | some res2 =>
              obtain ⟨rest2, c2, ws2⟩ := res2
              simp only [hr, Option.some.injEq, Prod.mk.injEq] at h
              obtain ⟨hn, _, _⟩ := h
              subst hn
              exact hpass hr
      | pystr s =>
          simp only [processNodes] at h
          cases hr : processNodes sw rest with
          | none => simp only [hr] at h; exact Option.noConfusion h
          | some res2 =>
              obtain ⟨rest2, c2, ws2⟩ := res2
              simp only [hr, Option.some.injEq, Prod.mk.injEq] at h
              obtain ⟨hn, _, _⟩ := h
              subst hn
              exact hpass hr
      | pylist xs =>
          simp only [processNodes] at h
          cases hr : processNodes sw rest with
          | none => simp only [hr] at h; exact Option.noConfusion h
          | some res2 =>
              obtain ⟨rest2, c2, ws2⟩ := res2
              simp only [hr, Option.some.injEq, Prod.mk.injEq] at h
              obtain ⟨hn, _, _⟩ := h
              subst hn
              exact hpass hr

/-- No equals sign can appear in an emitted directive: sanitization replaces
every character outside `[\w\-.]`, so neither the paths nor the fixed pieces
contain one. -/
lemma eq_not_mem_generated (wfn nm fl : String) :
    '=' ∉ (mkIncludeDirective (relScriptPath (_sanitize_filename wfn)
      (_sanitize_filename nm ++ _get_file_extension fl))).data := by
  intro hmem
  unfold mkIncludeDirective relScriptPath at hmem
  simp only [String.data_append, List.mem_append] at hmem
  rcases hmem with hm | hm
  · exact absurd hm (by decide)
  rcases hm with hm | hm
  · rcases hm with hm | hm
    · rcases hm with hm | hm
      · exact absurd hm (by decide)
      · exact absurd (sanitize_chars wfn '=' hm) (by decide)
    · exact absurd hm (by decide)
  · rcases hm with hm | hm
    · exact absurd (sanitize_chars nm '=' hm) (by decide)
    · rcases ext_cases fl with hf | hf | hf <;> rw [hf] at hm <;> exact absurd hm (by decide)

/-- C7: every code value the externalization emits is exactly the string
`"@@n8n-gitops:include "` followed by the relative script path, and never
contains `"sha256="`; all other code values are carried over unchanged. -/
theorem c7_checksumless_directives (workflow : PyVal) (workflow_name : String)
    (out : PyVal) (cnt : Nat) (files : List (String × String))
    (h : _externalize_workflow_code workflow workflow_name = some (out, cnt, files)) :
    ∀ v ∈ codeParamValues out, v ∈ codeParamValues workflow ∨
      ∃ rel, v = "@@n8n-gitops:include " ++ rel ∧
        ¬ List.IsInfix ("sha256=" : String).data v.data := by
  cases workflow with
  | pydict kvs =>
      cases hn : lookupY kvs "nodes" with
      | some nv =>
          cases nv with
          | pylist nodes =>
              simp only [_externalize_workflow_code, hn] at h
              cases hpn : processNodes (_sanitize_filename workflow_name) nodes with
              | none =>
                  simp only [hpn] at h
                  exact Option.noConfusion h
              | some res =>
                  obtain ⟨nodes2, c2, ws2⟩ := res
                  simp only [hpn, Option.some.injEq, Prod.mk.injEq] at h
                  obtain ⟨hw, _, _⟩ := h
                  subst hw
                  intro v hv
                  have hn2 := lookupY_updateAssoc_self (PyVal.pylist nodes2) hn
                  simp only [codeParamValues, hn2] at hv
                  rcases processNodes_values hpn v hv with hL | ⟨nm, fl, hR⟩
                  · refine Or.inl ?_
                    simp only [codeParamValues, hn]
                    exact hL
                  · refine Or.inr ⟨relScriptPath (_sanitize_filename workflow_name)
                      (_sanitize_filename nm ++ _get_file_extension fl), hR, ?_⟩
                    intro hinf
                    have hmem : '=' ∈ v.data :=
                      List.Sublist.mem (by decide) hinf.sublist
                    rw [hR] at hmem
                    exact eq_not_mem_generated workflow_name nm fl hmem
          | pynull =>
              simp only [_externalize_workflow_code, hn, Option.some.injEq,
                Prod.mk.injEq] at h
              obtain ⟨hw, _, _⟩ := h
              subst hw
              exact fun v hv => Or.inl hv
          | pybool b =>
              simp only [_externalize_workflow_code, hn, Option.some.injEq,
                Prod.mk.injEq] at h
              obtain ⟨hw, _, _⟩ := h
              subst hw
              exact fun v hv => Or.inl hv
          | pyint n2 =>
              simp only [_externalize_workflow_code, hn, Option.some.injEq,
                Prod.mk.injEq] at h
              obtain ⟨hw, _, _⟩ := h
              subst hw
              exact fun v hv => Or.inl hv
          | pystr s =>
              simp only [_externalize_workflow_code, hn, Option.some.injEq,
                Prod.mk.injEq] at h
              obtain ⟨hw, _, _⟩ := h
              subst hw
              exact fun v hv => Or.inl hv
          | pydict d =>
              simp only [_externalize_workflow_code, hn, Option.some.injEq,
                Prod.mk.injEq] at h
              obtain ⟨hw, _, _⟩ := h
              subst hw
              exact fun v hv => Or.inl hv
      | none =>
          simp only [_externalize_workflow_code, hn, Option.some.injEq,
            Prod.mk.injEq] at h
          obtain ⟨hw, _, _⟩ := h
          subst hw
          exact fun v hv => Or.inl hv
  | pynull => exact Option.noConfusion h
  | pybool b => exact Option.noConfusion h
  | pyint n => exact Option.noConfusion h
  | pystr s => exact Option.noConfusion h
  | pylist xs => exact Option.noConfusion h

/-- Witness for C7: the directive emitted for the concrete workflow is the
marker plus the path and carries no checksum. -/
theorem c7_checksumless_directives_witness :
    ("@@n8n-gitops:include scripts/Test/Node.js" : String) ∈
        codeParamValues c10InWorkflow ∨
      ∃ rel, ("@@n8n-gitops:include scripts/Test/Node.js" : String) =
          "@@n8n-gitops:include " ++ rel ∧
        ¬ List.IsInfix ("sha256=" : String).data
          ("@@n8n-gitops:include scripts/Test/Node.js" : String).data :=
  c7_checksumless_directives c10InWorkflow "Test" c10OutWorkflow 1
    [("scripts/Test/Node.js", "console.log(1);")] rfl
    "@@n8n-gitops:include scripts/Test/Node.js" (by decide)

/-! ## Render engine and the externalize/render round trip (claim C1)

Modelled from the spec: `n8n_gitops/render.py` is referenced by the sources
and tests (`render_workflow_json`, `RenderOptions`, `CODE_FIELD_NAMES`) but
its code is not in the repository snapshot.  The renderer below follows the
specification of the Include Resolver: deep-copy the input; for every node
object in `nodes` and every recognized code field, if the entire trimmed
value matches `@@n8n-gitops:include <path> [sha256=<64 lowercase hex>]`,
resolve the path against the snapshot and replace the value with the file's
raw content byte for byte; values not matching the grammar are left
untouched and produce no report.  The snapshot is a path-to-content map and
SHA-256 is an abstract digest parameter (no claim treated here declares a
checksum). -/

/-- Render options (`enforce_checksum`, `require_checksum`). -/
structure RenderOptions where
  enforce_checksum : Bool := false
  require_checksum : Bool := false

/-- One entry of the resolution report. -/
structure IncludeReport where
  fieldName : String
  nodeName : String
  path : String
  status : String
  expected : Option String := none
  actual : Option String := none
deriving DecidableEq, Repr

/-- Whitespace-separated words of a character list (Python `str.split()`). -/
def wordsAux : List Char → List Char → List (List Char)
  | [], acc => if acc = [] then [] else [acc.reverse]
  | c :: rest, acc =>
      if c.isWhitespace then
        if acc = [] then wordsAux rest [] else acc.reverse :: wordsAux rest []
      else wordsAux rest (c :: acc)

/-- A lowercase hexadecimal digit. -/
def isLowerHex (c : Char) : Bool := c.isDigit || ('a' ≤ c && c ≤ 'f')

/-- Parse the entire trimmed value against the include-directive grammar:
marker literal, relative path, optional `sha256=` of 64 lowercase hex
characters; anything else is not a directive. -/
def parseIncludeDirective (value : String) : Option (String × Option String) :=
  match wordsAux (pyStrip value).data [] with
  | [m, p] => if m = INCLUDE_MARKER.data then some (⟨p⟩, none) else none
  | [m, p, c] =>
      if m = INCLUDE_MARKER.data ∧ ("sha256=" : String).data.isPrefixOf c ∧
          (c.drop 7).length = 64 ∧ (c.drop 7).all isLowerHex = true then
        some (⟨p⟩, some ⟨c.drop 7⟩)
      else none
  | _ => none

/-- Snapshot lookup (`exists`/`read_text` over a path-to-content map). -/
def lookupS : List (String × String) → String → Option String
  | [], _ => none
  | (p, content) :: rest, path => if p = path then some content else lookupS rest path

/-- Resolve one code-parameter value. -/
def renderParamValue (snapshot : List (String × String)) (opts : RenderOptions)
    (digest : String → String) (nodeName fieldName : String) (v : String) :
    Except String (String × List IncludeReport) :=
  match parseIncludeDirective v with
  | none => .ok (v, [])
  | some (path, checksum) =>
      match lookupS snapshot path with
      | none =>
          if opts.enforce_checksum || opts.require_checksum then
            .error ("missing file: " ++ path)
          else .ok (v, [⟨fieldName, nodeName, path, "missing_file", checksum, none⟩])
      | some content =>
          match checksum with
          | some expected =>
              if digest content = expected then
                .ok (content, [⟨fieldName, nodeName, path, "included",
                  some expected, some (digest content)⟩])
              else if opts.enforce_checksum then
                .error ("checksum mismatch: " ++ path)
              else
                .ok (content, [⟨fieldName, nodeName, path, "checksum_mismatch",
                  some expected, some (digest content)⟩])
          | none =>
              if opts.require_checksum then
                .error ("missing required checksum: " ++ path)
              else .ok (content, [⟨fieldName, nodeName, path, "included", none, none⟩])

/-- Field loop of the renderer. -/
def renderFields (snapshot : List (String × String)) (opts : RenderOptions)
    (digest : String → String) (nodeName : String) :
    List String → List (String × PyVal) →
      Except String (List (String × PyVal) × List IncludeReport)
  | [], ps => .ok (ps, [])
  | f :: fs, ps =>
      match lookupY ps f with
      | some (.pystr v) =>
          match renderParamValue snapshot opts digest nodeName f v with
          | .error e => .error e
          | .ok (v2, reps) =>
              match renderFields snapshot opts digest nodeName fs
                  (updateAssoc ps f (.pystr v2)) with
              | .error e => .error e
              | .ok (ps2, reps2) => .ok (ps2, reps ++ reps2)
      | _ => renderFields snapshot opts digest nodeName fs ps

/-- Node loop of the renderer. -/
def renderNodes (snapshot : List (String × String)) (opts : RenderOptions)
    (digest : String → String) :
    List PyVal → Except String (List PyVal × List IncludeReport)
  | [] => .ok ([], [])
  | node :: rest =>
      match node with
      | .pydict nkvs =>
          match lookupY nkvs "parameters" with
          | some (.pydict ps) =>
              match renderFields snapshot opts digest
                  (match lookupY nkvs "name" with
                   | some (.pystr s) => s
                   | _ => "unnamed") CODE_FIELD_NAMES ps with
              | .error e => .error e
              | .ok (ps2, reps) =>
                  match renderNodes snapshot opts digest rest with
                  | .error e => .error e
                  | .ok (rest2, reps2) =>
                      .ok (.pydict (updateAssoc nkvs "parameters" (.pydict ps2)) :: rest2,
                        reps ++ reps2)
          | _ =>
              match renderNodes snapshot opts digest rest with
              | .error e => .error e
              | .ok (rest2, reps2) => .ok (node :: rest2, reps2)
      | _ =>
          match renderNodes snapshot opts digest rest with
          | .error e => .error e
          | .ok (rest2, reps2) => .ok (node :: rest2, reps2)

/-- `render.render_workflow_json`, modelled from the spec. -/
def render_workflow_json (workflow : PyVal) (snapshot : List (String × String))
    (opts : RenderOptions) (digest : String → String) :
    Except String (PyVal × List IncludeReport) :=
  match workflow with
  | .pydict kvs =>
      match lookupY kvs "nodes" with
      | some (.pylist nodes) =>
          match renderNodes snapshot opts digest nodes with
          | .error e => .error e
          | .ok (nodes2, reps) =>
              .ok (.pydict (updateAssoc kvs "nodes" (.pylist nodes2)), reps)
      | _ => .ok (workflow, [])
  | _ => .ok (workflow, [])

/-- The single-node workflow of the round-trip scenario, its code parameter
holding the string `s` (as in `test_round_trip_javascript`). -/
def c1Workflow (s : String) : PyVal :=
  .pydict [("name", .pystr "Test"),
           ("nodes", .pylist [.pydict [("name", .pystr "Node"),
             ("parameters", .pydict [("jsCode", .pystr s)])]])]

/-- Its externalized form: the code parameter replaced by the directive. -/
def c1Externalized : PyVal :=
  .pydict [("name", .pystr "Test"),
           ("nodes", .pylist [.pydict [("name", .pystr "Node"),
             ("parameters", .pydict [("jsCode", .pystr (mkIncludeDirective
               (relScriptPath (_sanitize_filename "Test")
                 (_sanitize_filename "Node" ++ _get_file_extension "jsCode"))))])]])]

/-- The deploy-side options of the round-trip test
(`RenderOptions(enforce_checksum=True)`). -/
def c1Options : RenderOptions := ⟨true, false⟩

/-- The code parameter of the single node. -/
def c1Param (w : PyVal) : Option PyVal :=
  match w with
  | .pydict kvs =>
      match lookupY kvs "nodes" with
      | some (.pylist (node :: _)) =>
          match node with
          | .pydict nkvs =>
              match lookupY nkvs "parameters" with
              | some (.pydict ps) => lookupY ps "jsCode"
              | _ => none
          | _ => none
      | _ => none
  | _ => none

/-- Externalize the round-trip workflow, then render the result against a
snapshot holding exactly the files the externalization wrote. -/
def c1Pipeline (digest : String → String) (s : String) :
    Option (Except String (PyVal × List IncludeReport)) :=
  match _externalize_workflow_code (c1Workflow s) "Test" with
  | none => none
  | some (w2, _, files) => some (render_workflow_json w2 files c1Options digest)

/-- Claim C1 as stated, at a code string `s`: the round trip reproduces `s`
byte for byte in the same parameter, with a report of status `included`. -/
def c1ClaimHolds (digest : String → String) (s : String) : Prop :=
  ∃ rendered reports, c1Pipeline digest s = some (.ok (rendered, reports)) ∧
    c1Param rendered = some (.pystr s) ∧ ∃ r ∈ reports, r.status = "included"

/-- C1 counterexample: the empty string does not match the directive grammar,
the round trip does reproduce it, but the externalization skips blank code,
so no report (let alone one of status `included`) is produced. -/
theorem c1_round_trip_counterexample :
    parseIncludeDirective "" = none ∧ ¬ c1ClaimHolds (fun _ => "") "" := by
  refine ⟨rfl, ?_⟩
  rintro ⟨rendered, reports, h1, h2, h3⟩
  have hpipe : c1Pipeline (fun _ => "") "" = some (.ok (c1Workflow "", [])) := rfl
  rw [hpipe] at h1
  simp only [Option.some.injEq, Except.ok.injEq, Prod.mk.injEq] at h1
  obtain ⟨hrend, hreps⟩ := h1
  rcases h3 with ⟨r, hr, _⟩
  rw [← hreps] at hr
  exact absurd hr (List.not_mem_nil r)

/-- C1 (amended): for every code string that the export path actually
externalizes — non-blank after trimming and not already starting with the
directive marker (such a string never matches the directive grammar) —
externalizing and then rendering reproduces the original string exactly,
byte for byte, in the same parameter, with a report of status `included`. -/
theorem c1_round_trip_amended (digest : String → String) (s : String)
    (h1 : ¬ pyStrip s = "") (h2 : ¬ pyStartsWith (pyStrip s) INCLUDE_MARKER = true) :
    c1ClaimHolds digest s := by
  have hext : _externalize_workflow_code (c1Workflow s) "Test" =
      some (c1Externalized, 1, [(relScriptPath (_sanitize_filename "Test")
        (_sanitize_filename "Node" ++ _get_file_extension "jsCode"), s)]) := by
    simp [c1Workflow, c1Externalized, _externalize_workflow_code, processNodes,
      processFields, nodeNameOf, CODE_FIELD_NAMES, lookupY, updateAssoc, h1, h2]
  have hrend : render_workflow_json c1Externalized
      [(relScriptPath (_sanitize_filename "Test")
        (_sanitize_filename "Node" ++ _get_file_extension "jsCode"), s)]
      c1Options digest =
      .ok (c1Workflow s,
        [⟨"jsCode", "Node", "scripts/Test/Node.js", "included", none, none⟩]) := rfl
  refine ⟨c1Workflow s,
    [⟨"jsCode", "Node", "scripts/Test/Node.js", "included", none, none⟩], ?_, rfl,
    ⟨_, List.mem_cons_self _ _, rfl⟩⟩
  unfold c1Pipeline
  rw [hext]
  exact congrArg some hrend

/-- Witness for the amended C1 at a concrete code string. -/
theorem c1_round_trip_amended_witness : c1ClaimHolds (fun _ => "") "console.log(1);" :=
  c1_round_trip_amended (fun _ => "") "console.log(1);" (by decide) (by decide)

/-! ## `N8nClient._request` retry loop (claim C5)

The HTTP transport is abstracted as a function from the attempt number to the
attempt's outcome; messages elide the response-body detail and exception text
the Python code appends.  `ReqTrace` records the result, how many requests
were issued and the backoff sleeps performed (in seconds, in order). -/

/-- Outcome of one HTTP attempt: a successful (status < 400) response with
its JSON body, an error status (`raise_for_status` raises `HTTPError`), a
timeout, or another transport error. -/
inductive ReqOutcome where
  | success (body : String)
  | httpStatus (code : Nat)
  | timeout
  | reqError
deriving DecidableEq, Repr

/-- Observable trace of a `_request` run. -/
structure ReqTrace where
  result : Except String String
  attempts : Nat
  sleeps : List Nat
deriving Repr

/-- `response.status_code in (429, 500, 502, 503, 504)`. -/
def isRetryableStatus (c : Nat) : Bool :=
  c = 429 || c = 500 || c = 502 || c = 503 || c = 504

def apiHttpErrorMsg (method endpoint : String) (code : Nat) : String :=
  s!"API request failed: {method} {endpoint} -> HTTP {code}"

def timeoutMsg (method endpoint : String) : String :=
  s!"Request timeout: {method} {endpoint}"

def reqErrorMsg (method endpoint : String) : String :=
  s!"Request error: {method} {endpoint}"

/-- The `for attempt in range(max_retries)` loop of `_request`, recursing on
the remaining attempts (`attempt = max_retries - remaining`).  Every caught
exception is wrapped in an `APIError` before the
`if not isinstance(last_error, APIError) or attempt == self.max_retries - 1`
break check runs, so that check only breaks on the last attempt — which is
why the non-retryable branches below still recurse when attempts remain. -/
def requestLoop (responses : Nat → ReqOutcome) (method endpoint : String)
    (maxRetries : Nat) : Nat → ReqTrace
  | 0 => ⟨.error s!"Request failed after {maxRetries} retries", maxRetries, []⟩
  | remaining + 1 =>
      let attempt := maxRetries - (remaining + 1)
      match responses attempt with
      | .success body => ⟨.ok body, attempt + 1, []⟩
      | .httpStatus c =>
          if isRetryableStatus c then
            if attempt < maxRetries - 1 then
              let t := requestLoop responses method endpoint maxRetries remaining
              ⟨t.result, t.attempts, 2 ^ attempt :: t.sleeps⟩
            else ⟨.error (apiHttpErrorMsg method endpoint c), attempt + 1, []⟩
          else
            if attempt = maxRetries - 1 then
              ⟨.error (apiHttpErrorMsg method endpoint c), attempt + 1, []⟩
            else
              let t := requestLoop responses method endpoint maxRetries remaining
              ⟨t.result, t.attempts, t.sleeps⟩
      | .timeout =>
          if attempt = maxRetries - 1 then
            ⟨.error (timeoutMsg method endpoint), attempt + 1, []⟩
          else
            let t := requestLoop responses method endpoint maxRetries remaining
            ⟨t.result, t.attempts, t.sleeps⟩
      | .reqError =>
          if attempt = maxRetries - 1 then
            ⟨.error (reqErrorMsg method endpoint), attempt + 1, []⟩
          else
            let t := requestLoop responses method endpoint maxRetries remaining
            ⟨t.result, t.attempts, t.sleeps⟩

/-- `N8nClient._request` (default `max_retries = 3`). -/
def N8nClient_request (responses : Nat → ReqOutcome) (method endpoint : String)
    (max_retries : Nat) : ReqTrace :=
  requestLoop responses method endpoint max_retries max_retries

/-- C5, evaluated: transient failures (429) are retried with backoff 1s, 2s
up to the 3-attempt ceiling and then fail with `APIError` — but a plain
HTTP 404, which the claim says must propagate without retry, is also
retried (three attempts, no backoff sleeps) because every caught exception
is already an `APIError` when the break check runs.  A transient failure
that clears on the second attempt succeeds after one 1s backoff. -/
theorem c5_request_retry_trace :
    N8nClient_request (fun _ => .httpStatus 404) "GET" "/api/v1/workflows" 3 =
      ⟨.error (apiHttpErrorMsg "GET" "/api/v1/workflows" 404), 3, []⟩ ∧
    N8nClient_request (fun _ => .httpStatus 429) "GET" "/api/v1/workflows" 3 =
      ⟨.error (apiHttpErrorMsg "GET" "/api/v1/workflows" 429), 3, [1, 2]⟩ ∧
    N8nClient_request (fun k => if k = 0 then .httpStatus 500 else .success "ok")
        "GET" "/api/v1/workflows" 3 =
      ⟨.ok "ok", 2, [1]⟩ := by
  refine ⟨rfl, rfl, rfl⟩

/-! ## `N8nClient.list_tags` pagination (claim C6)

The remote store is abstracted as a function from the request's query
parameters — the `limit` value and the optional `cursor` — to the parsed
response: either a dict page (`data`, optional `nextCursor`) or a bare list
(older servers).  The Python `while` loop is given explicit fuel; `none`
means the fuel ran out while the code would still be looping. -/

/-- A parsed `/api/v1/tags` response. -/
inductive TagsResponse where
  | page (data : Option PyVal) (nextCursor : Option String)
  | bare (tags : List PyVal)

/-- The pagination loop of `list_tags`: the cursor starts as `""` and is sent
as a parameter only when non-empty (Python truthiness); each dict page's
`data` is appended when it is a list; the loop follows `nextCursor` and stops
when a response carries none (or is a bare list). -/
def list_tags_loop (server : Nat → Option String → TagsResponse) :
    Nat → String → List PyVal → Option (List PyVal)
  | 0, _, _ => none
  | fuel + 1, cursor, acc =>
      match server 100 (if cursor = "" then none else some cursor) with
      | .bare l => some (acc ++ l)
      | .page d nc =>
          match nc with
          | none => some (acc ++ (match d with | some (.pylist l) => l | _ => []))
          | some c2 => list_tags_loop server fuel c2
              (acc ++ (match d with | some (.pylist l) => l | _ => []))

/-- `N8nClient.list_tags`. -/
def N8nClient_list_tags (server : Nat → Option String → TagsResponse)
    (fuel : Nat) : Option (List PyVal) :=
  list_tags_loop server fuel "" []

/-- A finite cursor chain: from cursor `c`, the server serves the given data
pages with non-empty next cursors, then a final page with no cursor. -/
def tagsChain (server : Nat → Option String → TagsResponse) :
    String → List (List PyVal × String) → List PyVal → Prop
  | c, [], last =>
      server 100 (if c = "" then none else some c) = .page (some (.pylist last)) none
  | c, (d, c2) :: rest, last =>
      c2 ≠ "" ∧
      server 100 (if c = "" then none else some c) = .page (some (.pylist d)) (some c2) ∧
      tagsChain server c2 rest last

lemma list_tags_loop_chain (server : Nat → Option String → TagsResponse)
    (ps : List (List PyVal × String)) (last : List PyVal) :
    ∀ (c : String) (acc : List PyVal) (fuel : Nat), tagsChain server c ps last →
      ps.length < fuel →
      list_tags_loop server fuel c acc = some (acc ++ ((ps.map Prod.fst).flatten ++ last)) := by
  induction ps with
  | nil =>
      intro c acc fuel hch hf
      have hsrv : server 100 (if c = "" then none else some c) =
          .page (some (.pylist last)) none := hch
      cases fuel with
      | zero => exact absurd hf (by simp)
      | succ f =>
          simp only [list_tags_loop, hsrv]
          simp
  | cons p rest ih =>
      obtain ⟨d, c2⟩ := p
      intro c acc fuel hch hf
      have hch2 : c2 ≠ "" ∧
          server 100 (if c = "" then none else some c) =
            .page (some (.pylist d)) (some c2) ∧
          tagsChain server c2 rest last := hch
      obtain ⟨hne, hsrv, hrest⟩ := hch2
      cases fuel with
      | zero => exact absurd hf (by simp)
      | succ f =>
          simp only [list_tags_loop, hsrv]
          rw [ih c2 (acc ++ d) f hrest (by simpa using hf)]
          simp

lemma list_tags_loop_limit100 (server server2 : Nat → Option String → TagsResponse)
    (hagree : ∀ cur, server 100 cur = server2 100 cur) :
    ∀ (fuel : Nat) (c : String) (acc : List PyVal),
      list_tags_loop server fuel c acc = list_tags_loop server2 fuel c acc := by
  intro fuel
  induction fuel with
  | zero => intro c acc; rfl
  | succ f ih =>
      intro c acc
      simp only [list_tags_loop, hagree]
      cases server2 100 (if c = "" then none else some c) with
      | bare l => rfl
      | page d nc =>
          cases nc with
          | none => rfl
          | some c2 => exact ih c2 _

/-- C6: `list_tags` follows `nextCursor` page by page, appending each page's
data array in order, and returns the concatenation exactly when a response
carries no `nextCursor` (or is a bare list); all requests use `limit = 100`
(the result only depends on the server's behavior at that limit). -/
theorem c6_list_tags_pagination :
    (∀ (server : Nat → Option String → TagsResponse)
        (ps : List (List PyVal × String)) (last : List PyVal) (fuel : Nat),
      tagsChain server "" ps last → ps.length < fuel →
      N8nClient_list_tags server fuel = some ((ps.map Prod.fst).flatten ++ last)) ∧
    (∀ (server : Nat → Option String → TagsResponse) (l : List PyVal) (fuel : Nat),
      server 100 none = .bare l → 0 < fuel →
      N8nClient_list_tags server fuel = some l) ∧
    (∀ (server server2 : Nat → Option String → TagsResponse) (fuel : Nat),
      (∀ cur, server 100 cur = server2 100 cur) →
      N8nClient_list_tags server fuel = N8nClient_list_tags server2 fuel) := by
  refine ⟨?_, ?_, ?_⟩
  · intro server ps last fuel hch hf
    unfold N8nClient_list_tags
    rw [list_tags_loop_chain server ps last "" [] fuel hch hf]
    simp
  · intro server l fuel hsrv hf
    cases fuel with
    | zero => exact absurd hf (by simp)
    | succ f =>
        unfold N8nClient_list_tags
        simp [list_tags_loop, hsrv]
  · intro server server2 fuel hagree
    exact list_tags_loop_limit100 server server2 hagree fuel "" []

/-- A concrete two-page tag server. -/
def c6Server : Nat → Option String → TagsResponse :=
  fun _ cur =>
    match cur with
    | none => .page (some (.pylist [.pystr "t1"])) (some "cur1")
    | some c => if c = "cur1" then .page (some (.pylist [.pystr "t2"])) none
                else .bare []

/-- Witness for C6: two pages are concatenated in order. -/
theorem c6_list_tags_pagination_witness :
    N8nClient_list_tags c6Server 5 =
      some ((([([PyVal.pystr "t1"], "cur1")].map Prod.fst).flatten ++ [PyVal.pystr "t2"])) :=
  c6_list_tags_pagination.1 c6Server [([PyVal.pystr "t1"], "cur1")] [PyVal.pystr "t2"] 5
    ⟨by decide, rfl, rfl⟩ (by decide)
